import Mathlib

/-!
Verification development for the `morg` music-library reconciliation tool.

The Rust sources (`album.rs`, `location.rs`, `main.rs`) are shallowly embedded
below.  Modelling conventions:

* Filesystem paths (`PathBuf`) are lists of path components (`FsPath`).
* Rust string operations (`replace`, `trim`, `split_once`, `rsplit_once`,
  `ends_with`, `to_uppercase`) are re-implemented on `List Char` so that every
  definition is executable and kernel-reducible; `String.replace` replaces all
  non-overlapping occurrences left to right, exactly as in Rust (all patterns
  used by the program are nonempty).
* `HashSet`/`HashMap` based code is modelled with duplicate-free lists and
  association lists where a later insertion replaces an earlier binding
  (matching `HashMap::insert`); theorems about such collections are stated up
  to membership, never up to iteration order.
* Effectful code is modelled by explicit state passing: a run of the
  reconciliation engine threads the album lists of the source roots and of the
  destination, and returns the list of file operations it performed together
  with the log events it emitted.  The external encoder (`ffmpeg`) is a
  parameter `encOk` giving the exit status of each invocation; the code under
  verification never inspects this status (faithful to `main.rs`, where the
  `Output` of the spawned process is discarded).
* The directory scan (`albums_in_dir`) is abstracted: a source root or a
  destination is represented directly by the list of album records living
  there, and copying an album re-roots that record at the target directory.
-/

deriving instance DecidableEq for Except

namespace Morg

/-! ## Rust string primitives, re-implemented on character lists -/

/-- Lexicographic comparison of character lists; models Rust's `Ord` on `str`
(UTF-8 byte order agrees with scalar-value order). -/
def charListLe : List Char → List Char → Bool
  | [], _ => true
  | _ :: _, [] => false
  | a :: as, b :: bs => if a < b then true else if a = b then charListLe as bs else false

/-- Order on strings used when sorting track lists (Rust `Vec<String>::sort`). -/
def strLe (s t : String) : Prop := charListLe s.toList t.toList = true

instance : DecidableRel strLe := fun s t =>
  inferInstanceAs (Decidable (charListLe s.toList t.toList = true))

theorem charListLe_total : ∀ as bs : List Char,
    charListLe as bs = true ∨ charListLe bs as = true := by
  intro as
  induction as with
  | nil => intro bs; left; rfl
  | cons a as ih =>
    intro bs
    cases bs with
    | nil => right; rfl
    | cons b bs =>
      rcases lt_trichotomy a b with hab | hab | hab
      · left; simp [charListLe, hab]
      · subst hab
        rcases ih bs with h | h
        · left; simp [charListLe, h]
        · right; simp [charListLe, h]
      · right; simp [charListLe, hab]

theorem charListLe_trans : ∀ as bs cs : List Char,
    charListLe as bs = true → charListLe bs cs = true → charListLe as cs = true := by
  intro as
  induction as with
  | nil => intro bs cs _ _; rfl
  | cons a as ih =>
    intro bs cs h1 h2
    cases bs with
    | nil => simp [charListLe] at h1
    | cons b bs =>
      cases cs with
      | nil => simp [charListLe] at h2
      | cons c cs =>
        simp only [charListLe] at h1 h2 ⊢
        by_cases hab : a < b
        · by_cases hbc : b < c
          · simp [lt_trans hab hbc]
          · simp only [if_pos hab] at h1
            by_cases hbc' : b = c
            · subst hbc'; simp [hab]
            · simp [hbc, hbc'] at h2
        · simp only [if_neg hab] at h1
          by_cases hab' : a = b
          · subst hab'
            simp only [if_pos rfl] at h1
            by_cases hac : a < c
            · simp [hac]
            · simp only [if_neg hac]
              by_cases hac' : a = c
              · simp only [if_pos hac']
                subst hac'
                simp only [if_neg hac, if_pos rfl] at h2
                exact ih _ _ h1 h2
              · simp [hac, hac'] at h2
          · simp [hab, hab'] at h1

instance : IsTotal String strLe :=
  ⟨fun s t => charListLe_total s.toList t.toList⟩

instance : IsTrans String strLe :=
  ⟨fun s t u => charListLe_trans s.toList t.toList u.toList⟩

/-- Replace all non-overlapping occurrences of `pat` (nonempty) in the third
argument, scanning left to right; the first argument is fuel (one unit per
examined character).  Models Rust `str::replace`. -/
def replaceChars (pat rep : List Char) : Nat → List Char → List Char
  | _, [] => []
  | 0, s => s
  | fuel + 1, c :: rest =>
    if pat ≠ [] ∧ pat.isPrefixOf (c :: rest) then
      rep ++ replaceChars pat rep fuel ((c :: rest).drop pat.length)
    else
      c :: replaceChars pat rep fuel rest

/-- Rust `str::replace` (all occurrences). -/
def strReplace (s pat rep : String) : String :=
  String.mk (replaceChars pat.toList rep.toList s.toList.length s.toList)

/-- Rust `str::trim` (strip leading and trailing whitespace). -/
def strTrim (s : String) : String :=
  String.mk (((s.toList.dropWhile Char.isWhitespace).reverse.dropWhile
    Char.isWhitespace).reverse)

/-- Rust `str::to_uppercase` (on the ASCII extension strings it is applied to). -/
def strToUpper (s : String) : String :=
  String.mk (s.toList.map Char.toUpper)

/-- Rust `str::ends_with`. -/
def strEndsWith (s pat : String) : Bool :=
  pat.toList.isSuffixOf s.toList

/-- Positions at which `pat` occurs in `s`. -/
def occPositions (s pat : List Char) : List Nat :=
  (List.range (s.length + 1)).filter (fun i => pat.isPrefixOf (s.drop i))

/-- Rust `str::split_once`: split at the first occurrence of `sep`. -/
def splitOnceStr (s sep : String) : Option (String × String) :=
  match occPositions s.toList sep.toList with
  | [] => none
  | i :: _ =>
    some (String.mk (s.toList.take i), String.mk (s.toList.drop (i + sep.toList.length)))

/-- Rust `str::rsplit_once`: split at the last occurrence of `sep`. -/
def rsplitOnceStr (s sep : String) : Option (String × String) :=
  match (occPositions s.toList sep.toList).getLast? with
  | none => none
  | some i =>
    some (String.mk (s.toList.take i), String.mk (s.toList.drop (i + sep.toList.length)))

/-- Rust `[String]::join(sep)`. -/
def joinSep (sep : String) : List String → String
  | [] => ""
  | [x] => x
  | x :: y :: xs => x ++ sep ++ joinSep sep (y :: xs)

/-! ## File types (`main.rs`, `enum FileType`) -/

/-- The audio file types of `main.rs`. -/
inductive FileType where
  | M4A
  | MP3
  | Wav
  | Flac
deriving DecidableEq, Repr

/-- `FileType::is_lossless`. -/
def FileType.is_lossless : FileType → Bool
  | .Wav => true
  | .Flac => true
  | _ => false

/-- The clap value name of each variant (`to_possible_value().get_name()`). -/
def FileType.name : FileType → String
  | .M4A => "m4a"
  | .MP3 => "mp3"
  | .Wav => "wav"
  | .Flac => "flac"

/-- `FileType::value_variants`, in declaration order. -/
def FileType.value_variants : List FileType :=
  [.M4A, .MP3, .Wav, .Flac]

/-- `IMAGE_EXTENSIONS` from `main.rs`. -/
def IMAGE_EXTENSIONS : List String := ["jpeg", "jpg", "png"]

/-- `MUSIC_EXTENSIONS` from `main.rs`. -/
def MUSIC_EXTENSIONS : List String := ["mp3", "flac", "wav", "m4a"]

/-- A filesystem path as its list of components. -/
abbrev FsPath := List String

/-! ## Albums (`album.rs`) -/

/-- The `Album` struct of `album.rs`. -/
structure Album where
  title : String
  artist : String
  tracks : List String
  dir_path : FsPath
  cover_files : List FsPath
  parsed_title : String
  parsed_artist : String
deriving DecidableEq, Repr

/-- Extension of a track name: `t.rsplit_once('.')` in `Album::file_type`. -/
def trackExtension (t : String) : Option String :=
  (rsplitOnceStr t ".").map (·.2)

/-- `Album::key`. -/
def Album.key (a : Album) : String :=
  a.parsed_artist ++ "###" ++ a.parsed_title

/-- `Album::file_type`: the unique track extension, looked up among the known
file types; `none` when the extensions are not all equal or none is present. -/
def Album.file_type (a : Album) : Option FileType :=
  match (a.tracks.filterMap trackExtension).dedup with
  | [e] => FileType.value_variants.find? (fun vv => decide (vv.name = e))
  | _ => none

/-- `Album::title_without_filetype`. -/
def Album.title_without_filetype (a : Album) : String :=
  match a.file_type with
  | some ft => strTrim (strReplace a.title ("[" ++ ft.name ++ "]") "")
  | none => a.title

/-- `Album::album_dir_with_ft`. -/
def Album.album_dir_with_ft (a : Album) (root_dir : FsPath) (ft : Option FileType) : FsPath :=
  match ft with
  | some ft => root_dir ++ [a.parsed_artist, a.parsed_title ++ " [" ++ ft.name ++ "]"]
  | none => root_dir ++ [a.parsed_artist, a.parsed_title]

/-- `Album::merge_with`: requires equal title, artist and directory; unions the
track sets (sorted) and the cover-file sets.  The Rust code materialises both
unions through `HashSet`, so only the membership of the results is specified by
the source; the sorted track order is fixed by the final `tracks.sort()`. -/
def Album.merge_with (a other : Album) : Except String Album :=
  if a.title = other.title ∧ a.artist = other.artist ∧ a.dir_path = other.dir_path then
    Except.ok
      { title := a.title
        artist := a.artist
        tracks := List.insertionSort strLe ((a.tracks ++ other.tracks).dedup)
        dir_path := a.dir_path
        cover_files := (a.cover_files ++ other.cover_files).dedup
        parsed_title := a.parsed_title
        parsed_artist := a.parsed_artist }
  else
    Except.error "Failed to merge albums"

/-! ## Claim C6: `merge_with` -/

/-- C6.  `merge_with` succeeds exactly when title, artist and directory path
agree; on success the track list is the duplicate-free sorted union of the two
track lists and the cover files are the union of the two cover-file sets; on
mismatch it returns an error (so no partial merge is produced). -/
theorem merge_with_spec (a b : Album) :
    ((∃ m, a.merge_with b = Except.ok m) ↔
      (a.title = b.title ∧ a.artist = b.artist ∧ a.dir_path = b.dir_path)) ∧
    (∀ m, a.merge_with b = Except.ok m →
      m.tracks.Sorted strLe ∧ m.tracks.Nodup ∧
      (∀ t, t ∈ m.tracks ↔ t ∈ a.tracks ∨ t ∈ b.tracks) ∧
      (∀ c, c ∈ m.cover_files ↔ c ∈ a.cover_files ∨ c ∈ b.cover_files)) := by
  constructor
  · constructor
    · rintro ⟨m, hm⟩
      by_contra hne
      simp only [Album.merge_with, if_neg hne] at hm
      injection hm
    · intro h
      unfold Album.merge_with
      rw [if_pos h]
      exact ⟨_, rfl⟩
  · intro m hm
    by_cases h : a.title = b.title ∧ a.artist = b.artist ∧ a.dir_path = b.dir_path
    · simp only [Album.merge_with, if_pos h, Except.ok.injEq] at hm
      subst hm
      refine ⟨List.sorted_insertionSort strLe _, ?_, ?_, ?_⟩
      · exact ((List.perm_insertionSort strLe _).nodup_iff).mpr
          (List.nodup_dedup _)
      · intro t
        rw [(List.perm_insertionSort strLe _).mem_iff, List.mem_dedup,
          List.mem_append]
      · intro c
        rw [List.mem_dedup, List.mem_append]
    · simp only [Album.merge_with, if_neg h] at hm
      injection hm

/-- C6 witness: concrete mergeable albums with disjoint track lists. -/
theorem merge_with_spec_witness :
    (∃ m, Album.merge_with
        ⟨"T", "A", ["02 b.mp3"], ["r", "A", "T"], [["r", "A", "T", "x.jpg"]], "T", "A"⟩
        ⟨"T", "A", ["01 a.mp3"], ["r", "A", "T"], [], "T", "A"⟩ = Except.ok m) ∧
    (∀ m, Album.merge_with
        ⟨"T", "A", ["02 b.mp3"], ["r", "A", "T"], [["r", "A", "T", "x.jpg"]], "T", "A"⟩
        ⟨"T", "A", ["01 a.mp3"], ["r", "A", "T"], [], "T", "A"⟩ = Except.ok m →
      m.tracks.Sorted strLe ∧ m.tracks.Nodup ∧
      (∀ t, t ∈ m.tracks ↔ t ∈ ["02 b.mp3"] ∨ t ∈ ["01 a.mp3"]) ∧
      (∀ c, c ∈ m.cover_files ↔ c ∈ [(["r", "A", "T", "x.jpg"] : FsPath)] ∨ c ∈ ([] : List FsPath))) := by
  have h := merge_with_spec
    ⟨"T", "A", ["02 b.mp3"], ["r", "A", "T"], [["r", "A", "T", "x.jpg"]], "T", "A"⟩
    ⟨"T", "A", ["01 a.mp3"], ["r", "A", "T"], [], "T", "A"⟩
  exact ⟨h.1.mpr (by decide), h.2⟩

/-! ## Path parsing (`album.rs`, `path_to_details`) -/

/-- Rust `Path::extension` of the last path component: the substring after the
last `.`, unless that dot is the leading character of the file name. -/
def pathExtension (p : FsPath) : Option String :=
  match p.getLast? with
  | none => none
  | some f =>
    match rsplitOnceStr f "." with
    | none => none
    | some (stem, ext) => if stem = "" then none else some ext

/-- `is_image` from `album.rs`. -/
def is_image (p : FsPath) : Bool :=
  match pathExtension p with
  | some e => IMAGE_EXTENSIONS.any (fun x => decide (x = e))
  | none => false

/-- `is_music` from `album.rs`. -/
def is_music (p : FsPath) : Bool :=
  match pathExtension p with
  | some e => MUSIC_EXTENSIONS.any (fun x => decide (x = e))
  | none => false

/-- The candidate bracket annotations tried by `path_to_details`: for each
music extension, the extension itself, its uppercase form, and all clap value
names of the file types. -/
def stripCandidates : List String :=
  (MUSIC_EXTENSIONS.map (fun ext =>
    [ext, strToUpper ext] ++ FileType.value_variants.map FileType.name)).flatten

/-- The (artist, album, file) policy of `path_to_details`, by number of path
components relative to the root. -/
def parseTriple (parts : List String) : Except String (String × String × String) :=
  if parts.length = 3 then
    Except.ok (parts.getD 0 "", parts.getD 1 "", parts.getD 2 "")
  else if parts.length > 3 then
    Except.ok (parts.getD 0 "", joinSep " - " ((parts.drop 1).dropLast),
      parts.getLastD "")
  else if parts.length = 2 then
    match splitOnceStr (parts.getD 0 "") " - " with
    | some (artist, album) => Except.ok (artist, album, parts.getD 1 "")
    | none =>
      match rsplitOnceStr (strReplace (parts.getD 1 "")
          (parts.getD 0 "" ++ " - ") "") " - " with
      | some (album, track) => Except.ok (parts.getD 0 "", album, track)
      | none => Except.error "Expected delimiter between album name and track"
  else Except.error "Could not parse details"

/-- Trim the album string and strip one trailing bracketed file-type
annotation (the `MUSIC_EXTENSIONS` loop of `path_to_details`). -/
def stripAlbum (album0 : String) : String :=
  match stripCandidates.find?
      (fun ext => strEndsWith (strTrim album0) ("[" ++ ext ++ "]")) with
  | some ext => strTrim (strReplace (strTrim album0) ("[" ++ ext ++ "]") "")
  | none => strTrim album0

/-- `path_to_details` from `album.rs`: derive (artist, album, file) from the
path components relative to the root, strip one trailing bracketed file-type
annotation from the album string, and classify the file as cover or track.
The Rust code panics when `path` is not below `root_dir`; this is modelled as
an error value. -/
def path_to_details (path root_dir : FsPath) : Except String Album :=
  if root_dir.isPrefixOf path then
    match parseTriple (path.drop root_dir.length) with
    | Except.error e => Except.error e
    | Except.ok (artist, album0, file) =>
      if path.isEmpty then Except.error "file should have a parent"
      else
        Except.ok
          { title := stripAlbum album0
            artist := artist
            tracks := if is_music path then [file] else []
            dir_path := path.dropLast
            cover_files := if is_image path then [path] else []
            parsed_title := stripAlbum album0
            parsed_artist := artist }
  else Except.error "path must be a child of root dir"

/-! ## Finalize (`album.rs`, `Album::finalize`) -/

/-- One `counter[&artist] += 1` step: counts are kept in first-seen order. -/
def bumpCount (counts : List (String × Nat)) (k : String) : List (String × Nat) :=
  match counts with
  | [] => [(k, 1)]
  | (k', n) :: rest =>
    if k' = k then (k', n + 1) :: rest else (k', n) :: bumpCount rest k

/-- The embedded album-artist counter built by `Album::finalize`; `tags` is
the external tag-reading surface (`get_track_tags(..).album_artist()`). -/
def artistCounts (tags : FsPath → Option String) (a : Album) : List (String × Nat) :=
  a.tracks.foldl (fun acc t =>
    match tags (a.dir_path ++ [t]) with
    | some artist => bumpCount acc artist
    | none => acc) []

/-- `Counter::most_common()[0]`: an entry of maximal count (first seen wins a
tie, since only a strictly greater count replaces the current best). -/
def mostCommon (counts : List (String × Nat)) : Option String :=
  match counts with
  | [] => none
  | c :: rest => some ((rest.foldl (fun best x => if x.2 > best.2 then x else best) c).1)

/-- `Album::finalize`: recompute `parsed_title` by stripping the file-type
annotation, and overwrite the `artist` field (not `parsed_artist`) with the
most common embedded album artist when one exists. -/
def Album.finalize (a : Album) (tags : FsPath → Option String) : Album :=
  match mostCommon (artistCounts tags a) with
  | some artist => { a with parsed_title := a.title_without_filetype, artist := artist }
  | none => { a with parsed_title := a.title_without_filetype }

/-! ## Source lookup (`album.rs`, `create_source_album_lookup`) -/

/-- Association list standing for the `HashMap` keyed by `(key, file type)`. -/
abbrev SourceLookup := List ((String × FileType) × (Album × FsPath))

/-- `HashMap::insert`: a later insertion replaces an earlier binding. -/
def lookupInsert (l : SourceLookup) (k : String × FileType) (v : Album × FsPath) :
    SourceLookup :=
  (k, v) :: l.filter (fun e => !decide (e.1 = k))

/-- `HashMap::get`. -/
def lookupFind (l : SourceLookup) (k : String × FileType) : Option (Album × FsPath) :=
  (l.find? (fun e => decide (e.1 = k))).map (·.2)

/-- `create_source_album_lookup`: every source root is given directly by the
list of albums living there (the abstraction of `albums_in_dir`); an album is
indexed only when its file type is determinable. -/
def create_source_album_lookup (sources : List (FsPath × List Album)) : SourceLookup :=
  sources.foldl (fun acc p =>
    p.2.foldl (fun acc2 a =>
      match a.file_type with
      | some ft => lookupInsert acc2 (a.key, ft) (a, p.1)
      | none => acc2) acc) []

/-- All albums of all source roots. -/
def allSourceAlbums (sources : List (FsPath × List Album)) : List Album :=
  (sources.map (·.2)).flatten

/-! ## Destination ordering (`main.rs`, `Commands::Sync`) -/

/-- A configured destination (plain directory or the ADB device). -/
inductive Destination where
  | PathDest (p : FsPath)
  | ADBDest
deriving DecidableEq, Repr

/-- A `(destination, desired file type, allow_any)` configuration entry. -/
abbrev DestEntry := Destination × FileType × Bool

/-- The key used by `destinations.sort_by_key` in `Commands::Sync`: `0` for a
path destination that is one of the configured source directories, `1` for
every other destination (including every other plain directory). -/
def destSortKey (source_directories : List FsPath) (d : DestEntry) : Nat :=
  match d.1 with
  | .PathDest p => if p ∈ source_directories then 0 else 1
  | .ADBDest => 1

/-- The destination order used by `Commands::Sync`: Rust's stable
`sort_by_key` with `destSortKey`, modelled by the (stable) insertion sort. -/
def sort_destinations (source_directories : List FsPath) (ds : List DestEntry) :
    List DestEntry :=
  List.insertionSort
    (fun d1 d2 => destSortKey source_directories d1 ≤ destSortKey source_directories d2) ds

/-- Whether a destination entry is a plain directory. -/
def isPathDest (d : DestEntry) : Bool :=
  match d.1 with
  | .PathDest _ => true
  | .ADBDest => false

/-- Whether a destination entry is the ADB device. -/
def isAdbDest (d : DestEntry) : Bool :=
  match d.1 with
  | .PathDest _ => false
  | .ADBDest => true

/-- The ordering property asserted by the claim: every plain-directory
destination occurs before every device destination. -/
def dirsBeforeDevices (l : List DestEntry) : Prop :=
  ∀ i : Fin l.length, ∀ j : Fin l.length,
    isPathDest (l.get i) = true → isAdbDest (l.get j) = true → i.val < j.val

instance (l : List DestEntry) : Decidable (dirsBeforeDevices l) := by
  unfold dirsBeforeDevices
  infer_instance

/-! ## Claim C10: `file_type` and index exclusion -/

theorem lookupFind_insert (l : SourceLookup) (k k' : String × FileType)
    (v : Album × FsPath) (h : k' ≠ k) :
    lookupFind (lookupInsert l k v) k' = lookupFind l k' := by
  unfold lookupInsert lookupFind
  have hhead : decide (((k, v) : (String × FileType) × (Album × FsPath)).1 = k') = false := by
    simp only [decide_eq_false_iff_not]
    exact fun hk => h hk.symm
  rw [List.find?_cons]
  simp only [hhead]
  congr 1
  induction l with
  | nil => rfl
  | cons e l ih =>
    by_cases he : e.1 = k
    · have : (!decide (e.1 = k)) = false := by simp [he]
      rw [List.filter_cons, this]
      simp only [Bool.false_eq_true, if_false]
      have hne : decide (e.1 = k') = false := by
        simp only [decide_eq_false_iff_not]
        rw [he]
        exact fun hk => h hk.symm
      rw [List.find?_cons, hne]
      exact ih
    · have : (!decide (e.1 = k)) = true := by simp [he]
      rw [List.filter_cons, this]
      simp only [if_true]
      rw [List.find?_cons, List.find?_cons]
      cases hd : decide (e.1 = k')
      · exact ih
      · rfl

theorem lookupFind_insert_self (l : SourceLookup) (k : String × FileType)
    (v : Album × FsPath) :
    lookupFind (lookupInsert l k v) k = some v := by
  unfold lookupInsert lookupFind
  rw [List.find?_cons]
  simp

/-- Well-formedness of a lookup: every binding stores an album whose file type
is the file-type component of its key. -/
def LookWF (l : SourceLookup) : Prop :=
  ∀ k v, lookupFind l k = some v → v.1.file_type = some k.2

theorem lookWF_insert {l : SourceLookup} {k : String × FileType} {v : Album × FsPath}
    (hl : LookWF l) (hv : v.1.file_type = some k.2) : LookWF (lookupInsert l k v) := by
  intro k' v' h
  by_cases hk : k' = k
  · subst hk
    rw [lookupFind_insert_self] at h
    cases h
    exact hv
  · rw [lookupFind_insert l k k' v hk] at h
    exact hl k' v' h

theorem lookWF_album_fold (root : FsPath) :
    ∀ (albums : List Album) (acc : SourceLookup), LookWF acc →
      LookWF (albums.foldl (fun acc2 a =>
        match a.file_type with
        | some ft => lookupInsert acc2 (a.key, ft) (a, root)
        | none => acc2) acc) := by
  intro albums
  induction albums with
  | nil => intro acc h; exact h
  | cons a l ih =>
    intro acc h
    rw [List.foldl_cons]
    apply ih
    cases hft : a.file_type with
    | none => simpa [hft] using h
    | some ft =>
      simp only [hft]
      exact lookWF_insert h hft

theorem lookWF_create (sources : List (FsPath × List Album)) :
    LookWF (create_source_album_lookup sources) := by
  unfold create_source_album_lookup
  suffices h : ∀ (ss : List (FsPath × List Album)) (acc : SourceLookup), LookWF acc →
      LookWF (ss.foldl (fun acc p =>
        p.2.foldl (fun acc2 a =>
          match a.file_type with
          | some ft => lookupInsert acc2 (a.key, ft) (a, p.1)
          | none => acc2) acc) acc) by
    exact h sources [] (fun k v hv => by simp [lookupFind] at hv)
  intro ss
  induction ss with
  | nil => intro acc h; exact h
  | cons p l ih =>
    intro acc h
    rw [List.foldl_cons]
    exact ih _ (lookWF_album_fold p.1 p.2 acc h)

/-- C10.  `file_type` is `none` for an empty track list, for more than one
distinct extension, and for a single shared extension that is not a known file
type; and every binding of the source lookup stores an album whose file type is
determinable (and equal to the file-type component of its key), so albums with
undeterminable file type are never indexed. -/
theorem file_type_none_cases_and_lookup :
    (∀ a : Album, a.tracks = [] → a.file_type = none) ∧
    (∀ (a : Album) (t1 t2 e1 e2 : String),
      t1 ∈ a.tracks → t2 ∈ a.tracks → trackExtension t1 = some e1 →
      trackExtension t2 = some e2 → e1 ≠ e2 → a.file_type = none) ∧
    (∀ (a : Album) (e : String), a.tracks ≠ [] →
      (∀ t ∈ a.tracks, trackExtension t = some e) →
      (∀ ft : FileType, ft.name ≠ e) → a.file_type = none) ∧
    (∀ (sources : List (FsPath × List Album)) (k : String × FileType)
      (v : Album × FsPath),
      lookupFind (create_source_album_lookup sources) k = some v →
      v.1.file_type = some k.2) := by
  refine ⟨?_, ?_, ?_, ?_⟩
  · intro a h
    unfold Album.file_type
    rw [h]
    rfl
  · intro a t1 t2 e1 e2 ht1 ht2 he1 he2 hne
    have hm1 : e1 ∈ (a.tracks.filterMap trackExtension).dedup :=
      List.mem_dedup.mpr (List.mem_filterMap.mpr ⟨t1, ht1, he1⟩)
    have hm2 : e2 ∈ (a.tracks.filterMap trackExtension).dedup :=
      List.mem_dedup.mpr (List.mem_filterMap.mpr ⟨t2, ht2, he2⟩)
    unfold Album.file_type
    rcases hd : (a.tracks.filterMap trackExtension).dedup with _ | ⟨x, _ | ⟨y, l⟩⟩
    · rfl
    · rw [hd] at hm1 hm2
      rw [List.mem_singleton] at hm1 hm2
      exact absurd (hm1.trans hm2.symm) hne
    · rfl
  · intro a e hne hall hnoft
    have hmem : e ∈ (a.tracks.filterMap trackExtension).dedup := by
      rcases List.exists_mem_of_ne_nil a.tracks hne with ⟨t, ht⟩
      exact List.mem_dedup.mpr (List.mem_filterMap.mpr ⟨t, ht, hall t ht⟩)
    have hallmem : ∀ x ∈ (a.tracks.filterMap trackExtension).dedup, x = e := by
      intro x hx
      rcases List.mem_filterMap.mp (List.mem_dedup.mp hx) with ⟨t, ht, hxt⟩
      have h2 := hall t ht
      rw [h2] at hxt
      exact (Option.some.inj hxt).symm
    have hnd : (a.tracks.filterMap trackExtension).dedup.Nodup := List.nodup_dedup _
    unfold Album.file_type
    rcases hd : (a.tracks.filterMap trackExtension).dedup with _ | ⟨x, _ | ⟨y, l⟩⟩
    · rfl
    · have hx : x = e := hallmem x (by rw [hd]; exact List.mem_singleton.mpr rfl)
      subst hx
      show FileType.value_variants.find? (fun vv => decide (vv.name = x)) = none
      apply List.find?_eq_none.mpr
      intro ft _
      simp only [decide_eq_true_eq]
      exact hnoft ft
    · rfl
  · intro sources k v h
    exact lookWF_create sources k v h

/-- C10 witness: concrete albums hitting the three `none` cases, and a
concrete lookup binding. -/
theorem file_type_none_cases_and_lookup_witness :
    (Album.file_type ⟨"T", "A", [], ["r"], [], "T", "A"⟩ = none) ∧
    (Album.file_type ⟨"T", "A", ["a.mp3", "b.flac"], ["r"], [], "T", "A"⟩ = none) ∧
    (Album.file_type ⟨"T", "A", ["a.ogg"], ["r"], [], "T", "A"⟩ = none) ∧
    ((⟨"T", "A", ["a.mp3"], ["r", "A", "T"], [], "T", "A"⟩ : Album).file_type
      = some FileType.MP3) := by
  refine ⟨?_, ?_, ?_, ?_⟩
  · exact file_type_none_cases_and_lookup.1 _ rfl
  · exact file_type_none_cases_and_lookup.2.1 _ "a.mp3" "b.flac" "mp3" "flac"
      (by decide) (by decide) (by decide) (by decide) (by decide)
  · exact file_type_none_cases_and_lookup.2.2.1 _ "ogg" (by decide)
      (by decide) (by intro ft; cases ft <;> decide)
  · exact file_type_none_cases_and_lookup.2.2.2
      [(["r"], [⟨"T", "A", ["a.mp3"], ["r", "A", "T"], [], "T", "A"⟩])]
      ("A###T", FileType.MP3)
      (⟨"T", "A", ["a.mp3"], ["r", "A", "T"], [], "T", "A"⟩, ["r"])
      (by decide)

/-! ## Claim C7: stripping of bracketed format tags by the path parser -/

/-- C7 counterexample.  For the album segment `Negative Spaces [MP3]` the
parser strips the tag from the *raw* `title` field as well: the claim that the
raw title retains the tag fails on this input. -/
theorem path_title_counterexample :
    (path_to_details ["Artist", "Negative Spaces [MP3]", "01 Song.mp3"] []).map Album.title
      = Except.ok "Negative Spaces" ∧
    (path_to_details ["Artist", "Negative Spaces [MP3]", "01 Song.mp3"] []).map Album.title
      ≠ Except.ok "Negative Spaces [MP3]" ∧
    (path_to_details ["Artist", "Negative Spaces [MP3]", "01 Song.mp3"] []).map Album.parsed_title
      = Except.ok "Negative Spaces" := by
  refine ⟨by decide, ?_, by decide⟩
  intro h
  have h1 : (path_to_details ["Artist", "Negative Spaces [MP3]", "01 Song.mp3"] []).map Album.title
      = Except.ok "Negative Spaces" := by decide
  rw [h1] at h
  injection h with h2
  exact absurd h2 (by decide)

/-- C7 amended.  Every successful parse stores the same (tag-stripped) string
in `title` and in `parsed_title`: `parsed_title` excludes the bracketed tag,
and so does the raw title (witnessed concretely for `Negative Spaces [MP3]` by
`path_title_counterexample`). -/
theorem path_title_eq_parsed_title (path root_dir : FsPath) (a : Album)
    (h : path_to_details path root_dir = Except.ok a) :
    a.title = a.parsed_title := by
  unfold path_to_details at h
  split at h
  · split at h
    · injection h
    · split at h
      · injection h
      · injection h with h2
        rw [← h2]
  · injection h

/-- C7 witness for the amended theorem at a concrete parse. -/
theorem path_title_eq_parsed_title_witness :
    path_to_details ["Artist", "Negative Spaces [MP3]", "01 Song.mp3"] []
      = Except.ok ⟨"Negative Spaces", "Artist", ["01 Song.mp3"],
          ["Artist", "Negative Spaces [MP3]"], [], "Negative Spaces", "Artist"⟩ ∧
    (⟨"Negative Spaces", "Artist", ["01 Song.mp3"],
        ["Artist", "Negative Spaces [MP3]"], [], "Negative Spaces", "Artist"⟩ : Album).title
      = (⟨"Negative Spaces", "Artist", ["01 Song.mp3"],
          ["Artist", "Negative Spaces [MP3]"], [], "Negative Spaces", "Artist"⟩ : Album).parsed_title :=
  ⟨by decide,
    path_title_eq_parsed_title ["Artist", "Negative Spaces [MP3]", "01 Song.mp3"] []
      ⟨"Negative Spaces", "Artist", ["01 Song.mp3"],
        ["Artist", "Negative Spaces [MP3]"], [], "Negative Spaces", "Artist"⟩
      (by decide)⟩

/-! ## Claim C8: the finalize step -/

theorem foldl_best_spec (c : String × Nat) (rest : List (String × Nat)) :
    (rest.foldl (fun best x => if x.2 > best.2 then x else best) c) ∈ c :: rest ∧
    ∀ p ∈ c :: rest,
      p.2 ≤ (rest.foldl (fun best x => if x.2 > best.2 then x else best) c).2 := by
  induction rest generalizing c with
  | nil =>
    refine ⟨List.mem_singleton.mpr rfl, ?_⟩
    intro p hp
    rw [List.mem_singleton] at hp
    subst hp
    exact le_refl _
  | cons x rest ih =>
    rw [List.foldl_cons]
    rcases ih (if x.2 > c.2 then x else c) with ⟨hmem, hbound⟩
    constructor
    · rcases List.mem_cons.mp hmem with h | h
      · rw [h]
        split
        · exact List.mem_cons.mpr (Or.inr (List.mem_cons_self _ _))
        · exact List.mem_cons_self _ _
      · exact List.mem_cons.mpr (Or.inr (List.mem_cons.mpr (Or.inr h)))
    · intro p hp
      rcases List.mem_cons.mp hp with h | h
      · subst h
        refine le_trans ?_ (hbound _ (List.mem_cons_self _ _))
        split
        · exact le_of_lt (by assumption)
        · exact le_refl _
      · rcases List.mem_cons.mp h with h2 | h2
        · subst h2
          refine le_trans ?_ (hbound _ (List.mem_cons_self _ _))
          split
          · exact le_refl _
          · exact le_of_not_lt (by assumption)
        · exact hbound p (List.mem_cons.mpr (Or.inr h2))

theorem mostCommon_spec (counts : List (String × Nat)) (w : String)
    (h : mostCommon counts = some w) :
    ∃ n, (w, n) ∈ counts ∧ ∀ p ∈ counts, p.2 ≤ n := by
  cases counts with
  | nil => injection h
  | cons c rest =>
    unfold mostCommon at h
    injection h with h2
    rcases foldl_best_spec c rest with ⟨hmem, hbound⟩
    refine ⟨(rest.foldl (fun best x => if x.2 > best.2 then x else best) c).2, ?_, hbound⟩
    rw [← h2]
    exact hmem

theorem bumpCount_ne_nil (counts : List (String × Nat)) (k : String) :
    bumpCount counts k ≠ [] := by
  cases counts with
  | nil => exact List.cons_ne_nil _ _
  | cons c rest =>
    unfold bumpCount
    split
    · exact List.cons_ne_nil _ _
    · exact List.cons_ne_nil _ _

theorem counts_fold_ne_nil_of_acc (tags : FsPath → Option String) (dir : FsPath) :
    ∀ (l : List String) (acc : List (String × Nat)), acc ≠ [] →
      l.foldl (fun acc t =>
        match tags (dir ++ [t]) with
        | some artist => bumpCount acc artist
        | none => acc) acc ≠ [] := by
  intro l
  induction l with
  | nil => intro acc h; exact h
  | cons t l ih =>
    intro acc h
    rw [List.foldl_cons]
    cases htag : tags (dir ++ [t]) with
    | none => simpa [htag] using ih acc h
    | some artist =>
      simp only [htag]
      exact ih _ (bumpCount_ne_nil acc artist)

theorem artistCounts_ne_nil (tags : FsPath → Option String) (a : Album)
    (h : ∃ t ∈ a.tracks, (tags (a.dir_path ++ [t])).isSome) :
    artistCounts tags a ≠ [] := by
  unfold artistCounts
  rcases h with ⟨t, ht, htag⟩
  have h2 : ∀ (l : List String) (acc : List (String × Nat)), t ∈ l →
      l.foldl (fun acc t =>
        match tags (a.dir_path ++ [t]) with
        | some artist => bumpCount acc artist
        | none => acc) acc ≠ [] := by
    intro l
    induction l with
    | nil => intro acc hmem; exact absurd hmem (List.not_mem_nil t)
    | cons x l ih =>
      intro acc hmem
      rw [List.foldl_cons]
      rcases List.mem_cons.mp hmem with hx | hx
      · subst hx
        cases htagx : tags (a.dir_path ++ [t]) with
        | none => rw [htagx] at htag; exact absurd htag (by decide)
        | some artist =>
          simp only [htagx]
          exact counts_fold_ne_nil_of_acc tags a.dir_path l _
            (bumpCount_ne_nil acc artist)
      · exact ih _ hx
  exact h2 a.tracks [] ht

/-- C8 counterexample data: an album whose single track carries the embedded
album-artist tag `TagArtist`, with path-derived artist `PathArtist`. -/
def c8Album : Album :=
  ⟨"T", "PathArtist", ["t1.mp3"], ["r", "PathArtist", "T"], [], "T", "PathArtist"⟩

/-- C8 counterexample tag surface: only `r/PathArtist/T/t1.mp3` is tagged. -/
def c8Tags : FsPath → Option String :=
  fun p => if p = ["r", "PathArtist", "T", "t1.mp3"] then some "TagArtist" else none

/-- C8 counterexample.  After finalize, the most common embedded artist lands
in the `artist` field; `parsed_artist` — and hence the identity key — keeps
the path-derived artist, contradicting the claim. -/
theorem finalize_key_counterexample :
    (c8Album.finalize c8Tags).artist = "TagArtist" ∧
    (c8Album.finalize c8Tags).parsed_artist = "PathArtist" ∧
    (c8Album.finalize c8Tags).parsed_artist ≠ "TagArtist" ∧
    (c8Album.finalize c8Tags).key = "PathArtist###T" ∧
    (c8Album.finalize c8Tags).key ≠ "TagArtist###T" := by
  refine ⟨?_, ?_, ?_, ?_, ?_⟩ <;> decide

/-- C8 amended.  When at least one track carries an embedded album-artist tag,
finalize overwrites the `artist` field with a maximal-count tagged artist,
while `parsed_artist` keeps the path-derived artist, so the identity key's
artist component is the path-derived one (its title component becomes the
tag-stripped title). -/
theorem finalize_spec (tags : FsPath → Option String) (a : Album)
    (h : ∃ t ∈ a.tracks, (tags (a.dir_path ++ [t])).isSome) :
    (a.finalize tags).parsed_artist = a.parsed_artist ∧
    (a.finalize tags).parsed_title = a.title_without_filetype ∧
    (a.finalize tags).key = a.parsed_artist ++ "###" ++ a.title_without_filetype ∧
    ∃ w n, (a.finalize tags).artist = w ∧ (w, n) ∈ artistCounts tags a ∧
      ∀ p ∈ artistCounts tags a, p.2 ≤ n := by
  have hne := artistCounts_ne_nil tags a h
  unfold Album.finalize
  cases hmc : mostCommon (artistCounts tags a) with
  | none =>
    exfalso
    cases hcc : artistCounts tags a with
    | nil => exact hne hcc
    | cons c rest =>
      rw [hcc] at hmc
      unfold mostCommon at hmc
      injection hmc
  | some w =>
    refine ⟨rfl, rfl, rfl, w, ?_⟩
    rcases mostCommon_spec _ w hmc with ⟨n, hwn, hbound⟩
    exact ⟨n, rfl, hwn, hbound⟩

/-- C8 witness for the amended theorem on the counterexample data. -/
theorem finalize_spec_witness :
    (c8Album.finalize c8Tags).parsed_artist = c8Album.parsed_artist ∧
    (c8Album.finalize c8Tags).key
      = c8Album.parsed_artist ++ "###" ++ c8Album.title_without_filetype ∧
    ∃ w n, (c8Album.finalize c8Tags).artist = w ∧ (w, n) ∈ artistCounts c8Tags c8Album ∧
      ∀ p ∈ artistCounts c8Tags c8Album, p.2 ≤ n := by
  have h := finalize_spec c8Tags c8Album ⟨"t1.mp3", by decide, by decide⟩
  exact ⟨h.1, h.2.2.1, h.2.2.2⟩

/-! ## Claim C9: ordering of destinations during Sync -/

theorem destSortKey_cases (srcs : List FsPath) (d : DestEntry) :
    destSortKey srcs d = 0 ∨ destSortKey srcs d = 1 := by
  unfold destSortKey
  cases d.1 with
  | PathDest p =>
    by_cases h : p ∈ srcs
    · left; simp [h]
    · right; simp [h]
  | ADBDest => right; rfl

theorem orderedInsert_all_true {α : Type} (r : α → α → Prop) [DecidableRel r]
    (d : α) (l : List α) (h : ∀ x ∈ l, r d x) :
    List.orderedInsert r d l = d :: l := by
  cases l with
  | nil => rfl
  | cons x xs =>
    unfold List.orderedInsert
    rw [if_pos (h x (List.mem_cons_self _ _))]

theorem orderedInsert_append_skip {α : Type} (r : α → α → Prop) [DecidableRel r]
    (d : α) (A B : List α) (h : ∀ x ∈ A, ¬ r d x) :
    List.orderedInsert r d (A ++ B) = A ++ List.orderedInsert r d B := by
  induction A with
  | nil => rfl
  | cons x A ih =>
    rw [List.cons_append, List.orderedInsert, if_neg (h x (List.mem_cons_self _ _)),
      ih (fun y hy => h y (List.mem_cons.mpr (Or.inr hy))), List.cons_append]

theorem key_positions {α : Type} (key : α → Nat) (L A B : List α) (hLAB : L = A ++ B)
    (hA : ∀ x ∈ A, key x = 0) (hB : ∀ x ∈ B, key x = 1) (k : Fin L.length) :
    (key (L.get k) = 0 → k.val < A.length) ∧
    (key (L.get k) = 1 → A.length ≤ k.val) := by
  subst hLAB
  constructor
  · intro hk
    by_contra hge
    push_neg at hge
    have hlen := @List.length_append α A B
    have h1 := k.isLt
    have hlt : k.val - A.length < B.length := by omega
    have h2 : (A ++ B).get k = B.get ⟨k.val - A.length, hlt⟩ := by
      rw [List.get_eq_getElem, List.get_eq_getElem]
      exact List.getElem_append_right hge
    rw [h2] at hk
    have hb := hB _ (List.get_mem B _ hlt)
    rw [hk] at hb
    exact absurd hb (by decide)
  · intro hk
    by_contra hlt
    push_neg at hlt
    have h2 : (A ++ B).get k = A.get ⟨k.val, hlt⟩ := by
      rw [List.get_eq_getElem, List.get_eq_getElem]
      exact List.getElem_append_left hlt
    rw [h2] at hk
    have ha := hA _ (List.get_mem A _ hlt)
    rw [hk] at ha
    exact absurd ha (by decide)

/-- C9 amended.  Rust's stable `sort_by_key` on the binary key moves exactly
the path destinations that are configured source directories to the front
(first conjunct: the sorted list is the key-0 entries followed by the key-1
entries, each in configuration order); consequently every key-0 entry precedes
every key-1 entry (second conjunct).  Non-source directory destinations share
key 1 with the ADB destination, so they are not moved ahead of it. -/
theorem sort_destinations_partition (srcs : List FsPath) (ds : List DestEntry) :
    sort_destinations srcs ds =
      ds.filter (fun d => decide (destSortKey srcs d = 0)) ++
      ds.filter (fun d => decide (destSortKey srcs d = 1)) ∧
    ∀ i j : Fin (sort_destinations srcs ds).length,
      destSortKey srcs ((sort_destinations srcs ds).get i) = 0 →
      destSortKey srcs ((sort_destinations srcs ds).get j) = 1 →
      i.val ≤ j.val := by
  have hpart : ∀ l : List DestEntry,
      List.insertionSort
        (fun d1 d2 => destSortKey srcs d1 ≤ destSortKey srcs d2) l =
      l.filter (fun d => decide (destSortKey srcs d = 0)) ++
      l.filter (fun d => decide (destSortKey srcs d = 1)) := by
    intro l
    induction l with
    | nil => rfl
    | cons d l ih =>
      show List.orderedInsert _ d (List.insertionSort _ l) = _
      rw [ih]
      rcases destSortKey_cases srcs d with h0 | h1
      · rw [orderedInsert_all_true _ d _ (fun x _ => by rw [h0]; exact Nat.zero_le _)]
        rw [List.filter_cons, List.filter_cons]
        simp only [h0, decide_eq_true_eq]
        norm_num
      · rw [orderedInsert_append_skip _ d _ _ ?hA,
          orderedInsert_all_true _ d _ ?hB]
        · rw [List.filter_cons, List.filter_cons]
          simp only [h1, decide_eq_true_eq]
          norm_num
        case hA =>
          intro x hx
          rcases List.mem_filter.mp hx with ⟨_, hx0⟩
          rw [decide_eq_true_eq] at hx0
          rw [h1, hx0]
          exact Nat.not_succ_le_zero 0
        case hB =>
          intro x hx
          rcases List.mem_filter.mp hx with ⟨_, hx1⟩
          rw [decide_eq_true_eq] at hx1
          rw [h1, hx1]
  have hL : sort_destinations srcs ds =
      ds.filter (fun d => decide (destSortKey srcs d = 0)) ++
      ds.filter (fun d => decide (destSortKey srcs d = 1)) := hpart ds
  refine ⟨hL, ?_⟩
  have hA : ∀ x ∈ ds.filter (fun d => decide (destSortKey srcs d = 0)),
      destSortKey srcs x = 0 := by
    intro x hx
    exact of_decide_eq_true (List.mem_filter.mp hx).2
  have hB : ∀ x ∈ ds.filter (fun d => decide (destSortKey srcs d = 1)),
      destSortKey srcs x = 1 := by
    intro x hx
    exact of_decide_eq_true (List.mem_filter.mp hx).2
  intro i j h0 h1
  have hi := (key_positions (destSortKey srcs) _ _ _ hL hA hB i).1 h0
  have hj := (key_positions (destSortKey srcs) _ _ _ hL hA hB j).2 h1
  omega

/-- C9 counterexample.  With an ADB destination configured before a plain
directory destination that is not a source directory, both get sort key 1 and
the stable sort keeps the device first: the directory is not reconciled before
the device. -/
theorem sort_destinations_counterexample :
    sort_destinations []
        [(Destination.ADBDest, FileType.MP3, false),
         (Destination.PathDest ["q"], FileType.MP3, false)] =
      [(Destination.ADBDest, FileType.MP3, false),
       (Destination.PathDest ["q"], FileType.MP3, false)] ∧
    ¬ dirsBeforeDevices (sort_destinations []
        [(Destination.ADBDest, FileType.MP3, false),
         (Destination.PathDest ["q"], FileType.MP3, false)]) := by
  constructor
  · decide
  · decide

/-! ## The reconciliation engine (`main.rs`) and the directory Location
(`location.rs`)

State passing: `sources : List (FsPath × List Album)` is the album content of
each configured source root (the view a rescan would produce), `dest : List
Album` the album content of the destination directory.  File operations are
collected in a trace; log prints relevant to the claims are collected
separately (they are not file operations). -/

/-- A file operation performed by the engine. -/
inductive SyncOp where
  | delAlbum (dir : FsPath)
  | copyFullAlbum (srcDir dstDir : FsPath)
  | copyFile (src dst : FsPath)
  | convMkdir (dir : FsPath)
  | convCopyCover (src dst : FsPath)
  | convEncode (src dst : FsPath)
deriving DecidableEq, Repr

/-- A log event emitted by the engine. -/
inductive SyncLog where
  | noSrcAlbum (a : Album)
  | noFileType (a : Album)
  | ensureFailed (a : Album)
deriving DecidableEq, Repr

/-- The file name of a cover path (`cf.file_name()`). -/
def coverName (cf : FsPath) : String := cf.getLastD ""

/-- Track renaming done by `convert_src_album`:
`t.replace(".{src_ft}", ".{desired_ft}")`. -/
def renameTrack (src_ft dest_ft : FileType) (t : String) : String :=
  strReplace t ("." ++ src_ft.name) ("." ++ dest_ft.name)

/-- Whether `get_output_args` produces output arguments for the target type;
for `Wav`/`M4A` it returns `NOT IMPLEMENTED`, the error is silently dropped at
the call site, and `ffmpeg` runs without an output path, producing no file. -/
def outputImplemented : FileType → Bool
  | .MP3 => true
  | .Flac => true
  | _ => false

/-- The track files actually present on disk after the conversion loop: one
output per source track when the encoder was given an output path and exited
successfully; the Rust code never inspects the exit status, so `encOk` only
affects the filesystem, not the returned album record. -/
def producedTracks (encOk : FsPath → Bool) (src_album : Album)
    (src_ft dest_ft : FileType) : List String :=
  if outputImplemented dest_ft then
    src_album.tracks.filterMap (fun t =>
      if encOk (src_album.dir_path ++ [t]) then some (renameTrack src_ft dest_ft t)
      else none)
  else []

/-- The album list of root `root` inside the sources state. -/
def albumsOfRoot (sources : List (FsPath × List Album)) (root : FsPath) : List Album :=
  match sources.find? (fun p => decide (p.1 = root)) with
  | some p => p.2
  | none => []

/-- Find the album record living at directory `dir` in some source root. -/
def findRealAlbum (sources : List (FsPath × List Album)) (dir : FsPath) : Option Album :=
  (allSourceAlbums sources).find? (fun a => decide (a.dir_path = dir))

/-- Record the files written by a conversion inside the sources state: merging
into the album record of an already-existing directory, else appending a new
record to the root. -/
def addAlbumToRoot (sources : List (FsPath × List Album)) (root : FsPath)
    (fsA : Album) : List (FsPath × List Album) :=
  sources.map (fun p =>
    if p.1 = root then
      (p.1,
        if p.2.any (fun a => decide (a.dir_path = fsA.dir_path)) then
          p.2.map (fun a =>
            if a.dir_path = fsA.dir_path then
              { a with
                tracks := a.tracks ++ fsA.tracks.filter
                  (fun t => !(a.tracks.any (fun t2 => decide (t2 = t))))
                cover_files := a.cover_files ++ fsA.cover_files.filter
                  (fun c => !(a.cover_files.any (fun c2 => decide (c2 = c)))) }
            else a)
        else p.2 ++ [fsA])
    else p)

/-- Result of `convert_src_album`. -/
structure ConvOut where
  res : Except String Album
  ops : List SyncOp
  sources : List (FsPath × List Album)
deriving Repr

/-- `convert_src_album` from `main.rs`.  Checks (in order) that the source
file type is determinable and that the conversion is not lossy-to-lossless —
both before any filesystem work.  It then creates the target directory inside
the source root (unless present), copies the covers, and invokes the encoder
once per track; the per-track loop pushes the renamed track name
unconditionally (the encoder's exit status and the missing output arguments
for unimplemented targets are ignored), so the final count check always
passes and the returned record claims all renamed tracks. -/
def convert_src_album (encOk : FsPath → Bool) (src : FsPath) (src_album : Album)
    (dest_ft : FileType) (sources : List (FsPath × List Album)) : ConvOut :=
  match src_album.file_type with
  | none => ⟨Except.error "Failed to determine filetype of source album", [], sources⟩
  | some src_ft =>
    if dest_ft.is_lossless && !src_ft.is_lossless then
      ⟨Except.error "Converting a lossy music format to a lossless one is prohibited",
        [], sources⟩
    else
      ⟨(if (src_album.tracks.map (renameTrack src_ft dest_ft)).length
            = src_album.tracks.length then
          Except.ok
            { title := src_album.title
              artist := src_album.artist
              tracks := src_album.tracks.map (renameTrack src_ft dest_ft)
              dir_path := src_album.album_dir_with_ft src (some dest_ft)
              cover_files := src_album.cover_files
              parsed_title := src_album.parsed_title
              parsed_artist := src_album.parsed_artist }
        else Except.error "Failed to convert src album"),
        ((if (albumsOfRoot sources src).any
              (fun a => decide (a.dir_path = src_album.album_dir_with_ft src (some dest_ft)))
          then []
          else [SyncOp.convMkdir (src_album.album_dir_with_ft src (some dest_ft))]) ++
          src_album.cover_files.map (fun cf =>
            SyncOp.convCopyCover cf
              (src_album.album_dir_with_ft src (some dest_ft) ++ [coverName cf])) ++
          src_album.tracks.map (fun t =>
            SyncOp.convEncode (src_album.dir_path ++ [t])
              (src_album.album_dir_with_ft src (some dest_ft)
                ++ [renameTrack src_ft dest_ft t]))),
        addAlbumToRoot sources src
          { title := src_album.title
            artist := src_album.artist
            tracks := producedTracks encOk src_album src_ft dest_ft
            dir_path := src_album.album_dir_with_ft src (some dest_ft)
            cover_files := src_album.cover_files.map (fun cf =>
              src_album.album_dir_with_ft src (some dest_ft) ++ [coverName cf])
            parsed_title := src_album.parsed_title
            parsed_artist := src_album.parsed_artist }⟩

/-- Result of `get_ft_src_album`. -/
structure GetFtOut where
  res : Option Album
  ops : List SyncOp
  sources : List (FsPath × List Album)
deriving Repr

/-- The source file-type order tried for conversion in `get_ft_src_album`. -/
def src_ft_order : List FileType := [.Flac, .Wav, .MP3, .M4A]

/-- The conversion loop of `get_ft_src_album`. -/
def try_conversions (encOk : FsPath → Bool) (key : String) (dest_ft : FileType)
    (lookup : SourceLookup) :
    List FileType → List (FsPath × List Album) → GetFtOut
  | [], sources => ⟨none, [], sources⟩
  | ftc :: rest, sources =>
    match lookupFind lookup (key, ftc) with
    | some (src_album, src) =>
      match convert_src_album encOk src src_album dest_ft sources with
      | ⟨Except.ok a, ops, sources2⟩ => ⟨some a, ops, sources2⟩
      | ⟨Except.error _, ops, sources2⟩ =>
        match try_conversions encOk key dest_ft lookup rest sources2 with
        | ⟨r, ops2, sources3⟩ => ⟨r, ops ++ ops2, sources3⟩
    | none => try_conversions encOk key dest_ft lookup rest sources

/-- `get_ft_src_album` from `main.rs`: exact `(key, dest_ft)` lookup first,
else try converting a source copy, in the order `src_ft_order`. -/
def get_ft_src_album (encOk : FsPath → Bool) (album : Album) (dest_ft : FileType)
    (lookup : SourceLookup) (sources : List (FsPath × List Album)) : GetFtOut :=
  match lookupFind lookup (album.key, dest_ft) with
  | some (src_album, _) => ⟨some src_album, [], sources⟩
  | none => try_conversions encOk album.key dest_ft lookup src_ft_order sources

/-- `DirLocation::copy_full_album`: `fs_extra` copies the source directory
into `destRoot/parsed_artist/`; with the default options an already-existing
target directory makes the copy fail (logged, state unchanged), else the
destination gains the album record that really lives at the copied directory,
re-rooted at the target. -/
def loc_copy_full_album (destRoot : FsPath) (sources : List (FsPath × List Album))
    (dest : List Album) (x : Album) : List SyncOp × List Album :=
  ([SyncOp.copyFullAlbum x.dir_path (destRoot ++ [x.parsed_artist, x.dir_path.getLastD ""])],
    if dest.any (fun a =>
        decide (a.dir_path = destRoot ++ [x.parsed_artist, x.dir_path.getLastD ""])) then
      dest
    else
      match findRealAlbum sources x.dir_path with
      | some real =>
        dest ++ [{ real with
          dir_path := destRoot ++ [x.parsed_artist, x.dir_path.getLastD ""]
          cover_files := real.cover_files.map (fun cf =>
            destRoot ++ [x.parsed_artist, x.dir_path.getLastD ""] ++ [coverName cf]) }]
      | none =>
        dest ++ [{ x with
          dir_path := destRoot ++ [x.parsed_artist, x.dir_path.getLastD ""]
          cover_files := x.cover_files.map (fun cf =>
            destRoot ++ [x.parsed_artist, x.dir_path.getLastD ""] ++ [coverName cf]) }])

/-- `DirLocation::del_album`: recursively remove the album's directory. -/
def loc_del_album (dest : List Album) (a : Album) : List SyncOp × List Album :=
  ([SyncOp.delAlbum a.dir_path],
    dest.filter (fun b => !decide (b.dir_path = a.dir_path)))

/-- `DirLocation::copy_missing_files`: when the destination directory exists,
copy the source tracks absent (by name) from the destination album, skipping
tracks whose source and target paths coincide; the cover-file loop of the Rust
code compares `src_album.cover_files` against itself, so it never copies
anything and is omitted from the operations.  When the destination directory
does not exist, fall back to `copy_full_album`.  Only files that really exist
at the source directory land in the destination state. -/
def loc_copy_missing_files (destRoot : FsPath) (sources : List (FsPath × List Album))
    (dest : List Album) (src_album dst_album : Album) : List SyncOp × List Album :=
  if dest.any (fun a => decide (a.dir_path = dst_album.dir_path)) then
    ((src_album.tracks.filter (fun t =>
        !(dst_album.tracks.any (fun t2 => decide (t2 = t))) &&
        !decide (src_album.dir_path ++ [t] = dst_album.dir_path ++ [t]))).map
      (fun t => SyncOp.copyFile (src_album.dir_path ++ [t]) (dst_album.dir_path ++ [t])),
      dest.map (fun a =>
        if a.dir_path = dst_album.dir_path then
          { a with tracks := a.tracks ++
              ((src_album.tracks.filter (fun t =>
                  !(dst_album.tracks.any (fun t2 => decide (t2 = t))) &&
                  !decide (src_album.dir_path ++ [t] = dst_album.dir_path ++ [t]))).filter
                (fun t =>
                  (match findRealAlbum sources src_album.dir_path with
                    | some r => r.tracks
                    | none => src_album.tracks).any (fun t2 => decide (t2 = t)) &&
                  !(a.tracks.any (fun t2 => decide (t2 = t))))) }
        else a))
  else loc_copy_full_album destRoot sources dest src_album

/-- The running state of one `sync_to_loc` pass. -/
structure SyncAcc where
  sources : List (FsPath × List Album)
  dest : List Album
  ail : List (String × FileType)
  ops : List SyncOp
  logs : List SyncLog
deriving Repr

/-- Result of `ensure_album_is_in_location`. -/
structure EnsureOut where
  res : Except String FileType
  ops : List SyncOp
  sources : List (FsPath × List Album)
  dest : List Album

/-- `ensure_album_is_in_location` from `main.rs`. -/
def ensure_album_is_in_location (encOk : FsPath → Bool) (destRoot : FsPath)
    (src_album : Album) (dest_ft : FileType) (lookup : SourceLookup)
    (allow_any : Bool) (sources : List (FsPath × List Album)) (dest : List Album) :
    EnsureOut :=
  match get_ft_src_album encOk src_album dest_ft lookup sources with
  | ⟨some s, ops1, sources1⟩ =>
    match loc_copy_full_album destRoot sources1 dest s with
    | (ops2, dest2) => ⟨Except.ok dest_ft, ops1 ++ ops2, sources1, dest2⟩
  | ⟨none, ops1, sources1⟩ =>
    match src_album.file_type, allow_any with
    | some ft2, true =>
      match loc_copy_full_album destRoot sources1 dest src_album with
      | (ops2, dest2) => ⟨Except.ok ft2, ops1 ++ ops2, sources1, dest2⟩
    | _, _ => ⟨Except.error "Failed to find proper source", ops1, sources1, dest⟩

/-- The `copy_full_album` closure of `sync_to_loc`: run
`ensure_album_is_in_location` and record `(key, ft)` on success. -/
def copy_full_album_closure (encOk : FsPath → Bool) (destRoot : FsPath)
    (dest_ft : FileType) (lookup : SourceLookup) (allow_any : Bool)
    (album : Album) (acc : SyncAcc) : SyncAcc :=
  match ensure_album_is_in_location encOk destRoot album dest_ft lookup allow_any
      acc.sources acc.dest with
  | ⟨Except.ok ft2, ops, sources2, dest2⟩ =>
    ⟨sources2, dest2, acc.ail ++ [(album.key, ft2)], acc.ops ++ ops, acc.logs⟩
  | ⟨Except.error _, ops, sources2, dest2⟩ =>
    ⟨sources2, dest2, acc.ail, acc.ops ++ ops, acc.logs ++ [SyncLog.ensureFailed album]⟩

/-- One iteration of the first phase of `sync_to_loc` (repair existing
destination albums); `scanAlbums` is the full initial scan, used by the
stale `albums.iter().any(..)` check of the Rust code. -/
def phase1_step (encOk : FsPath → Bool) (destRoot : FsPath) (ft : FileType)
    (allow_any : Bool) (lookup : SourceLookup) (scanAlbums : List Album)
    (a : Album) (acc : SyncAcc) : SyncAcc :=
  match a.file_type with
  | some aft =>
    match get_ft_src_album encOk a ft lookup acc.sources with
    | ⟨some src_album, ops1, sources1⟩ =>
      if aft ≠ ft then
        if !(scanAlbums.any (fun a2 =>
            decide (a2.key = a.key) && decide (a2.file_type = some ft))) then
          match loc_del_album acc.dest a with
          | (opsD, dest1) =>
            copy_full_album_closure encOk destRoot ft lookup allow_any src_album
              ⟨sources1, dest1, acc.ail, acc.ops ++ ops1 ++ opsD, acc.logs⟩
        else ⟨sources1, acc.dest, acc.ail, acc.ops ++ ops1, acc.logs⟩
      else
        match loc_copy_missing_files destRoot sources1 acc.dest src_album a with
        | (ops2, dest2) =>
          ⟨sources1, dest2, acc.ail ++ [(a.key, aft)], acc.ops ++ ops1 ++ ops2, acc.logs⟩
    | ⟨none, ops1, sources1⟩ =>
      ⟨sources1, acc.dest, acc.ail ++ [(a.key, aft)], acc.ops ++ ops1,
        acc.logs ++ [SyncLog.noSrcAlbum a]⟩
  | none => ⟨acc.sources, acc.dest, acc.ail, acc.ops, acc.logs ++ [SyncLog.noFileType a]⟩

/-- Phase 1 of `sync_to_loc` over the scanned destination albums. -/
def phase1 (encOk : FsPath → Bool) (destRoot : FsPath) (ft : FileType)
    (allow_any : Bool) (lookup : SourceLookup) (scanAlbums : List Album) :
    List Album → SyncAcc → SyncAcc
  | [], acc => acc
  | a :: rest, acc =>
    phase1 encOk destRoot ft allow_any lookup scanAlbums rest
      (phase1_step encOk destRoot ft allow_any lookup scanAlbums a acc)

/-- Phase 2 of `sync_to_loc` (copy missing albums), iterating over the
rebuilt lookup; the closure keeps using the lookup captured in phase 1 (the
Rust closure captures the first `album_lookup` binding, which the second
`let album_lookup` merely shadows). -/
def phase2 (encOk : FsPath → Bool) (destRoot : FsPath) (ft : FileType)
    (lookup : SourceLookup) (allow_any : Bool) :
    List ((String × FileType) × (Album × FsPath)) → SyncAcc → SyncAcc
  | [], acc => acc
  | e :: rest, acc =>
    phase2 encOk destRoot ft lookup allow_any rest
      (if acc.ail.any (fun p => decide (p.1 = e.2.1.key)) then acc
       else copy_full_album_closure encOk destRoot ft lookup allow_any e.2.1 acc)

/-- Result of one `sync_to_loc` pass. -/
structure SyncOut where
  ops : List SyncOp
  logs : List SyncLog
  sources : List (FsPath × List Album)
  dest : List Album
deriving Repr

/-- `sync_to_loc` from `main.rs`, for a directory destination rooted at
`destRoot`: build the lookup, repair the existing destination albums, rebuild
the lookup, and copy every source album whose key is not yet present. -/
def sync_to_loc (encOk : FsPath → Bool) (destRoot : FsPath) (ft : FileType)
    (allow_any : Bool) (sources : List (FsPath × List Album))
    (destAlbums : List Album) : SyncOut :=
  match phase2 encOk destRoot ft (create_source_album_lookup sources) allow_any
      (create_source_album_lookup
        (phase1 encOk destRoot ft allow_any (create_source_album_lookup sources)
          destAlbums destAlbums ⟨sources, destAlbums, [], [], []⟩).sources)
      (phase1 encOk destRoot ft allow_any (create_source_album_lookup sources)
        destAlbums destAlbums ⟨sources, destAlbums, [], [], []⟩) with
  | ⟨sources2, dest2, _, ops2, logs2⟩ => ⟨ops2, logs2, sources2, dest2⟩

/-! ## Claim C2: lossy-to-lossless conversion is rejected before any work -/

/-- C2.  Whenever the desired type is lossless and the source album's file
type is lossy, `convert_src_album` returns an error, performs no file
operation (no directory creation, no cover copy, no encoder invocation), and
leaves the source state unchanged. -/
theorem convert_rejects_lossy_to_lossless (encOk : FsPath → Bool) (src : FsPath)
    (src_album : Album) (dest_ft : FileType)
    (sources : List (FsPath × List Album)) (sft : FileType)
    (hft : src_album.file_type = some sft)
    (hlossy : sft.is_lossless = false)
    (hlossless : dest_ft.is_lossless = true) :
    (∃ e, (convert_src_album encOk src src_album dest_ft sources).res
      = Except.error e) ∧
    (convert_src_album encOk src src_album dest_ft sources).ops = [] ∧
    (convert_src_album encOk src src_album dest_ft sources).sources = sources := by
  have hcond : (dest_ft.is_lossless && !sft.is_lossless) = true := by
    rw [hlossy, hlossless]
    rfl
  unfold convert_src_album
  simp only [hft, hcond, if_true]
  exact ⟨⟨_, rfl⟩, trivial, trivial⟩

/-- C2 witness: converting an MP3 album to FLAC is rejected with no work. -/
theorem convert_rejects_lossy_to_lossless_witness :
    (∃ e, (convert_src_album (fun _ => true) ["S"]
        ⟨"T", "A", ["a.mp3"], ["S", "A", "T"], [], "T", "A"⟩ FileType.Flac []).res
      = Except.error e) ∧
    (convert_src_album (fun _ => true) ["S"]
        ⟨"T", "A", ["a.mp3"], ["S", "A", "T"], [], "T", "A"⟩ FileType.Flac []).ops = [] ∧
    (convert_src_album (fun _ => true) ["S"]
        ⟨"T", "A", ["a.mp3"], ["S", "A", "T"], [], "T", "A"⟩ FileType.Flac []).sources
      = [] :=
  convert_rejects_lossy_to_lossless (fun _ => true) ["S"]
    ⟨"T", "A", ["a.mp3"], ["S", "A", "T"], [], "T", "A"⟩ FileType.Flac [] FileType.MP3
    (by decide) (by decide) (by decide)

/-! ## Claim C5: encoder failures are ignored by `convert_src_album` -/

/-- C5 failing input: a FLAC source album converted to MP3 while every encoder
invocation fails. -/
def c1SrcAlbum : Album :=
  ⟨"T", "A", ["t1.flac"], ["R", "A", "T"], [["R", "A", "T", "c.jpg"]], "T", "A"⟩

/-- The single source root used by the C1 and C5 failing inputs. -/
def c1Sources : List (FsPath × List Album) := [(["R"], [c1SrcAlbum])]

/-- C5.  `convert_src_album` never inspects the encoder's exit status: with
every invocation failing it still reports success for the whole album (the
per-track loop pushes each renamed name unconditionally, so the final
produced-count check is vacuous), and the reported result does not depend on
the encoder outcome at all. -/
theorem convert_ignores_encoder_failure :
    ((convert_src_album (fun _ => false) ["R"] c1SrcAlbum FileType.MP3 c1Sources).res
      = Except.ok ⟨"T", "A", ["t1.mp3"], ["R", "A", "T [mp3]"],
          [["R", "A", "T", "c.jpg"]], "T", "A"⟩) ∧
    (∀ (encOk1 encOk2 : FsPath → Bool) (src : FsPath) (a : Album) (ft : FileType)
      (sources : List (FsPath × List Album)),
      (convert_src_album encOk1 src a ft sources).res
        = (convert_src_album encOk2 src a ft sources).res) := by
  constructor
  · decide
  · intro encOk1 encOk2 src a ft sources
    unfold convert_src_album
    cases h : a.file_type with
    | none => rfl
    | some sft =>
      by_cases hc : (ft.is_lossless && !sft.is_lossless) = true
      · simp only [hc]
        rw [if_pos trivial, if_pos trivial]
      · simp only [hc]
        rfl

/-! ## Claim C4: `copy_missing_files` never copies missing cover files -/

/-- C4 failing input: source album with a cover file. -/
def c4Src : Album :=
  ⟨"T", "A", ["t1.mp3"], ["S", "A", "T"], [["S", "A", "T", "c.jpg"]], "T", "A"⟩

/-- C4 failing input: destination album lacking that cover. -/
def c4Dst : Album := ⟨"T", "A", ["t1.mp3"], ["D", "A", "T"], [], "T", "A"⟩

/-- C4 auxiliary input: source album with one extra track. -/
def c4Src2 : Album := ⟨"T", "A", ["t1.mp3", "t2.mp3"], ["S", "A", "T"], [], "T", "A"⟩

/-- C4.  With the destination directory existing and the source cover absent
from the destination, `copy_missing_files` performs no operation at all (its
cover loop tests the source's cover list against itself, which never holds),
leaving the destination unchanged; a missing track, by contrast, is copied
(exactly it), and a missing destination directory degrades to
`copy_full_album`. -/
theorem copy_missing_files_cover_bug :
    ((loc_copy_missing_files ["D"] [(["S"], [c4Src])] [c4Dst] c4Src c4Dst).1 = []) ∧
    (c4Src.cover_files ≠ []) ∧
    (∀ c ∈ c4Src.cover_files, c ∉ c4Dst.cover_files) ∧
    ((loc_copy_missing_files ["D"] [(["S"], [c4Src])] [c4Dst] c4Src c4Dst).2 = [c4Dst]) ∧
    ((loc_copy_missing_files ["D"] [(["S"], [c4Src2])] [c4Dst] c4Src2 c4Dst).1
      = [SyncOp.copyFile ["S", "A", "T", "t2.mp3"] ["D", "A", "T", "t2.mp3"]]) ∧
    ((loc_copy_missing_files ["D"] [(["S"], [c4Src])] [] c4Src c4Dst).1
      = [SyncOp.copyFullAlbum ["S", "A", "T"] ["D", "A", "T"]]) := by
  refine ⟨?_, ?_, ?_, ?_, ?_, ?_⟩ <;> decide

/-! ## Claim C1: idempotence of the reconciliation engine -/

/-- First run: empty destination, one FLAC source album, desired type Wav. -/
def c1Run1 : SyncOut := sync_to_loc (fun _ => true) ["D"] FileType.Wav false c1Sources []

/-- Second run on the state left by the first run, nothing changed between. -/
def c1Run2 : SyncOut :=
  sync_to_loc (fun _ => true) ["D"] FileType.Wav false c1Run1.sources c1Run1.dest

/-- C1.  The engine is not idempotent: with a FLAC source album and desired
type Wav (conversion target not implemented — `get_output_args` bails with
`NOT IMPLEMENTED`, the error is dropped and the encoder runs without an output
path, so the conversion reports success while producing no track), the second
run over unchanged source and destination contents performs a cover copy, an
encoder invocation and a full-album copy again. -/
theorem sync_to_loc_second_run_performs_ops :
    c1Run2.ops =
      [SyncOp.convCopyCover ["R", "A", "T", "c.jpg"] ["R", "A", "T [wav]", "c.jpg"],
       SyncOp.convEncode ["R", "A", "T", "t1.flac"] ["R", "A", "T [wav]", "t1.wav"],
       SyncOp.copyFullAlbum ["R", "A", "T [wav]"] ["D", "A", "T [wav]"]] ∧
    c1Run2.ops ≠ [] := by
  constructor
  · decide
  · decide

/-! ## Claim C3: a destination album with no conforming source is left
untouched

Infrastructure: a Boolean test for "this operation touches directory `d`"
(deletes it, copies a whole album onto it, or writes a file directly inside
it), and the finite sets of directories the engine can ever write to, all
derived from the initial sources. -/

/-- Whether a file operation touches directory `d`: deletes it, targets it
with a whole-album copy or directory creation, or writes a file directly
inside it. -/
def opTouches (d : FsPath) : SyncOp → Bool
  | .delAlbum dir => decide (dir = d)
  | .copyFullAlbum _ tgt => decide (tgt = d)
  | .copyFile _ dst => decide (dst.dropLast = d)
  | .convMkdir dir => decide (dir = d)
  | .convCopyCover _ dst => decide (dst.dropLast = d)
  | .convEncode _ dst => decide (dst.dropLast = d)

/-- The destination directory of `copy_full_album` for album `x`. -/
def copyTarget (destRoot : FsPath) (x : Album) : FsPath :=
  destRoot ++ [x.parsed_artist, x.dir_path.getLastD ""]

/-- All directories a conversion with target type `ft` can create inside the
source roots. -/
def conv_dir_candidates (ft : FileType) (sources : List (FsPath × List Album)) :
    List FsPath :=
  (sources.map (fun p => p.2.map (fun X => X.album_dir_with_ft p.1 (some ft)))).flatten

/-- All destination directories `copy_full_album` can target during a run
with desired type `ft` and `allow_any = false`: targets of source albums and
targets of their conversion results. -/
def copy_target_candidates (destRoot : FsPath) (ft : FileType)
    (sources : List (FsPath × List Album)) : List FsPath :=
  (allSourceAlbums sources).map (fun X => copyTarget destRoot X) ++
  (allSourceAlbums sources).map (fun X =>
    destRoot ++ [X.parsed_artist, X.parsed_title ++ " [" ++ ft.name ++ "]"])

theorem copyTarget_conv (destRoot : FsPath) (X : Album) (r : FsPath) (ft : FileType)
    (c : Album) (hpa : c.parsed_artist = X.parsed_artist)
    (hdir : c.dir_path = X.album_dir_with_ft r (some ft)) :
    copyTarget destRoot c
      = destRoot ++ [X.parsed_artist, X.parsed_title ++ " [" ++ ft.name ++ "]"] := by
  unfold copyTarget
  rw [hpa, hdir]
  simp only [Album.album_dir_with_ft]
  have : r ++ [X.parsed_artist, X.parsed_title ++ " [" ++ ft.name ++ "]"]
      = (r ++ [X.parsed_artist]) ++ [X.parsed_title ++ " [" ++ ft.name ++ "]"] := by
    rw [List.append_assoc]
    rfl
  rw [this, List.getLastD_concat]

/-- Membership facts about the source lookup: the stored album comes from the
stored root, which is one of the configured roots, and the binding's key
components are the album's own key and file type. -/
theorem lookup_find_mem (sources : List (FsPath × List Album))
    (k : String × FileType) (v : Album × FsPath)
    (h : lookupFind (create_source_album_lookup sources) k = some v) :
    v.1.key = k.1 ∧ ∃ p ∈ sources, v.2 = p.1 ∧ v.1 ∈ p.2 := by
  unfold create_source_album_lookup at h
  suffices hgen : ∀ (ss : List (FsPath × List Album)) (acc : SourceLookup),
      (∀ k' v', lookupFind acc k' = some v' →
        v'.1.key = k'.1 ∧ ∃ p ∈ sources, v'.2 = p.1 ∧ v'.1 ∈ p.2) →
      (∀ p ∈ ss, p ∈ sources) →
      (∀ k' v', lookupFind (ss.foldl (fun acc p =>
        p.2.foldl (fun acc2 a =>
          match a.file_type with
          | some ft => lookupInsert acc2 (a.key, ft) (a, p.1)
          | none => acc2) acc) acc) k' = some v' →
        v'.1.key = k'.1 ∧ ∃ p ∈ sources, v'.2 = p.1 ∧ v'.1 ∈ p.2) by
    exact hgen sources [] (fun k' v' hv => by simp [lookupFind] at hv)
      (fun p hp => hp) k v h
  intro ss
  induction ss with
  | nil => intro acc hacc _ k' v' h'; exact hacc k' v' h'
  | cons p ss ih =>
    intro acc hacc hss k' v' h'
    rw [List.foldl_cons] at h'
    refine ih _ ?_ (fun q hq => hss q (List.mem_cons.mpr (Or.inr hq))) k' v' h'
    have hp : p ∈ sources := hss p (List.mem_cons_self _ _)
    have hinner : ∀ (albums : List Album) (acc2 : SourceLookup),
        (∀ k' v', lookupFind acc2 k' = some v' →
          v'.1.key = k'.1 ∧ ∃ q ∈ sources, v'.2 = q.1 ∧ v'.1 ∈ q.2) →
        (∀ a ∈ albums, a ∈ p.2) →
        (∀ k' v', lookupFind (albums.foldl (fun acc2 a =>
          match a.file_type with
          | some ft => lookupInsert acc2 (a.key, ft) (a, p.1)
          | none => acc2) acc2) k' = some v' →
          v'.1.key = k'.1 ∧ ∃ q ∈ sources, v'.2 = q.1 ∧ v'.1 ∈ q.2) := by
      intro albums
      induction albums with
      | nil => intro acc2 hacc2 _ k' v' h2; exact hacc2 k' v' h2
      | cons a albums ih2 =>
        intro acc2 hacc2 halb k' v' h2
        rw [List.foldl_cons] at h2
        refine ih2 _ ?_ (fun b hb => halb b (List.mem_cons.mpr (Or.inr hb))) k' v' h2
        cases hft : a.file_type with
        | none => simpa [hft] using hacc2
        | some ft =>
          simp only [hft]
          intro k2 v2 h3
          by_cases hk : k2 = (a.key, ft)
          · subst hk
            rw [lookupFind_insert_self] at h3
            cases h3
            exact ⟨rfl, p, hp, rfl, halb a (List.mem_cons_self _ _)⟩
          · rw [lookupFind_insert _ _ _ _ hk] at h3
            exact hacc2 k2 v2 h3
    exact hinner p.2 acc hacc (fun b hb => hb)

/-- The album of any lookup binding is one of the source albums. -/
theorem lookup_find_album_mem (sources : List (FsPath × List Album))
    (k : String × FileType) (v : Album × FsPath)
    (h : lookupFind (create_source_album_lookup sources) k = some v) :
    v.1 ∈ allSourceAlbums sources := by
  rcases (lookup_find_mem sources k v h).2 with ⟨p, hp, _, hmem⟩
  unfold allSourceAlbums
  exact List.mem_flatten.mpr ⟨p.2, List.mem_map_of_mem _ hp, hmem⟩

theorem convert_ops_avoid (d : FsPath) (encOk : FsPath → Bool) (r : FsPath)
    (X : Album) (ft : FileType) (srcs : List (FsPath × List Album))
    (hdir : X.album_dir_with_ft r (some ft) ≠ d) :
    ∀ op ∈ (convert_src_album encOk r X ft srcs).ops, opTouches d op = false := by
  intro op hop
  unfold convert_src_album at hop
  cases hX : X.file_type with
  | none =>
    simp only [hX] at hop
    exact absurd hop (List.not_mem_nil op)
  | some sft =>
    simp only [hX] at hop
    by_cases hc : (ft.is_lossless && !sft.is_lossless) = true
    · rw [if_pos hc] at hop
      exact absurd hop (List.not_mem_nil op)
    · rw [if_neg hc] at hop
      simp only [List.mem_append] at hop
      rcases hop with (hop | hop) | hop
      · split at hop
        · exact absurd hop (List.not_mem_nil op)
        · rw [List.mem_singleton] at hop
          subst hop
          simp only [opTouches, decide_eq_false_iff_not]
          exact hdir
      · rcases List.mem_map.mp hop with ⟨cf, _, hcf⟩
        subst hcf
        simp only [opTouches, List.dropLast_concat, decide_eq_false_iff_not]
        exact hdir
      · rcases List.mem_map.mp hop with ⟨t, _, ht⟩
        subst ht
        simp only [opTouches, List.dropLast_concat, decide_eq_false_iff_not]
        exact hdir

theorem convert_res_shape (encOk : FsPath → Bool) (r : FsPath) (X : Album)
    (ft : FileType) (srcs : List (FsPath × List Album)) (c : Album)
    (h : (convert_src_album encOk r X ft srcs).res = Except.ok c) :
    c.parsed_artist = X.parsed_artist ∧ c.parsed_title = X.parsed_title ∧
    c.dir_path = X.album_dir_with_ft r (some ft) := by
  unfold convert_src_album at h
  cases hX : X.file_type with
  | none =>
    simp only [hX] at h
    injection h
  | some sft =>
    simp only [hX] at h
    by_cases hc : (ft.is_lossless && !sft.is_lossless) = true
    · rw [if_pos hc] at h
      injection h
    · rw [if_neg hc] at h
      split at h
      · injection h with h2
        subst h2
        exact ⟨rfl, rfl, rfl⟩
      · injection h

theorem convert_lossy_bail (encOk : FsPath → Bool) (r : FsPath) (X : Album)
    (srcs : List (FsPath × List Album)) (sft : FileType)
    (hX : X.file_type = some sft) (hlossy : sft.is_lossless = false)
    (dft : FileType) (hl : dft.is_lossless = true) :
    convert_src_album encOk r X dft srcs
      = ⟨Except.error "Converting a lossy music format to a lossless one is prohibited",
          [], srcs⟩ := by
  unfold convert_src_album
  simp only [hX]
  rw [if_pos (by rw [hl, hlossy]; rfl)]

theorem try_step_nofind (encOk : FsPath → Bool) (key : String) (dft : FileType)
    (lookup : SourceLookup) (ftc : FileType) (rest : List FileType)
    (srcs : List (FsPath × List Album))
    (hfind : lookupFind lookup (key, ftc) = none) :
    try_conversions encOk key dft lookup (ftc :: rest) srcs
      = try_conversions encOk key dft lookup rest srcs := by
  rw [try_conversions]
  simp only [hfind]

theorem try_step_lossy (encOk : FsPath → Bool) (key : String)
    (sources0 : List (FsPath × List Album)) (ftc : FileType) (rest : List FileType)
    (srcs : List (FsPath × List Album)) (hlossy : ftc.is_lossless = false)
    (dft : FileType) (hl : dft.is_lossless = true) :
    try_conversions encOk key dft (create_source_album_lookup sources0)
        (ftc :: rest) srcs
      = try_conversions encOk key dft (create_source_album_lookup sources0) rest srcs := by
  rw [try_conversions]
  cases hfind : lookupFind (create_source_album_lookup sources0) (key, ftc) with
  | none => rfl
  | some v =>
    obtain ⟨X, r⟩ := v
    have hwf : X.file_type = some ftc := lookWF_create sources0 (key, ftc) (X, r) hfind
    simp only [convert_lossy_bail encOk r X srcs ftc hwf hlossy dft hl]
    rcases htc : try_conversions encOk key dft (create_source_album_lookup sources0)
        rest srcs with ⟨res3, ops3, s3⟩
    simp

theorem try_conversions_none_flac (encOk : FsPath → Bool) (key : String)
    (sources0 srcs : List (FsPath × List Album))
    (hnoflac : lookupFind (create_source_album_lookup sources0) (key, FileType.Flac) = none)
    (hnowav : lookupFind (create_source_album_lookup sources0) (key, FileType.Wav) = none) :
    try_conversions encOk key FileType.Flac (create_source_album_lookup sources0)
      src_ft_order srcs = ⟨none, [], srcs⟩ := by
  unfold src_ft_order
  rw [try_step_nofind encOk key FileType.Flac _ FileType.Flac _ srcs hnoflac,
    try_step_nofind encOk key FileType.Flac _ FileType.Wav _ srcs hnowav,
    try_step_lossy encOk key sources0 FileType.MP3 _ srcs rfl FileType.Flac rfl,
    try_step_lossy encOk key sources0 FileType.M4A _ srcs rfl FileType.Flac rfl]
  rfl

theorem get_ft_none_flac (encOk : FsPath → Bool) (a : Album)
    (sources0 srcs : List (FsPath × List Album))
    (hnoflac : lookupFind (create_source_album_lookup sources0) (a.key, FileType.Flac) = none)
    (hnowav : lookupFind (create_source_album_lookup sources0) (a.key, FileType.Wav) = none) :
    get_ft_src_album encOk a FileType.Flac (create_source_album_lookup sources0) srcs
      = ⟨none, [], srcs⟩ := by
  unfold get_ft_src_album
  simp only [hnoflac]
  exact try_conversions_none_flac encOk a.key sources0 srcs hnoflac hnowav

theorem lookup_conv_dir_ne (d : FsPath) (ft : FileType)
    (sources0 : List (FsPath × List Album)) (key : String) (ftc : FileType)
    (X : Album) (r : FsPath)
    (hconv : d ∉ conv_dir_candidates ft sources0)
    (hfind : lookupFind (create_source_album_lookup sources0) (key, ftc) = some (X, r)) :
    X.album_dir_with_ft r (some ft) ≠ d := by
  intro hd
  apply hconv
  rcases (lookup_find_mem sources0 (key, ftc) (X, r) hfind).2 with ⟨p, hp, hr, hX⟩
  unfold conv_dir_candidates
  refine List.mem_flatten.mpr ⟨p.2.map (fun Y => Y.album_dir_with_ft p.1 (some ft)),
    List.mem_map_of_mem _ hp, ?_⟩
  have hr2 : r = p.1 := hr
  rw [← hd, hr2]
  exact List.mem_map_of_mem _ hX

theorem try_conversions_avoid (d destRoot : FsPath) (encOk : FsPath → Bool)
    (key : String) (ft : FileType) (sources0 : List (FsPath × List Album))
    (hconv : d ∉ conv_dir_candidates ft sources0)
    (hcopy : d ∉ copy_target_candidates destRoot ft sources0) :
    ∀ (order : List FileType) (srcs : List (FsPath × List Album)),
      (∀ op ∈ (try_conversions encOk key ft
          (create_source_album_lookup sources0) order srcs).ops,
        opTouches d op = false) ∧
      (∀ c, (try_conversions encOk key ft
          (create_source_album_lookup sources0) order srcs).res = some c →
        copyTarget destRoot c ≠ d) := by
  intro order
  induction order with
  | nil =>
    intro srcs
    constructor
    · intro op hop
      exact absurd hop (List.not_mem_nil op)
    · intro c hc
      injection hc
  | cons ftc rest ih =>
    intro srcs
    cases hfind : lookupFind (create_source_album_lookup sources0) (key, ftc) with
    | none =>
      rw [try_step_nofind encOk key ft _ ftc rest srcs hfind]
      exact ih srcs
    | some v =>
      obtain ⟨X, r⟩ := v
      have hdir : X.album_dir_with_ft r (some ft) ≠ d :=
        lookup_conv_dir_ne d ft sources0 key ftc X r hconv hfind
      rcases hcv : convert_src_album encOk r X ft srcs with ⟨res2, ops2, s2⟩
      have hops2 : ∀ op ∈ ops2, opTouches d op = false := by
        intro op hop
        have h4 := convert_ops_avoid d encOk r X ft srcs hdir op
        rw [hcv] at h4
        exact h4 hop
      cases res2 with
      | ok c =>
        have hstep : try_conversions encOk key ft (create_source_album_lookup sources0)
            (ftc :: rest) srcs = ⟨some c, ops2, s2⟩ := by
          rw [try_conversions]
          simp only [hfind, hcv]
        rw [hstep]
        constructor
        · exact hops2
        · intro c2 hc2
          have hc3 : c = c2 := by injection hc2
          subst hc3
          have hshape := convert_res_shape encOk r X ft srcs c (by rw [hcv])
          rw [copyTarget_conv destRoot X r ft c hshape.1 hshape.2.2]
          intro hd
          apply hcopy
          unfold copy_target_candidates
          refine List.mem_append.mpr (Or.inr ?_)
          rw [← hd]
          exact List.mem_map_of_mem _
            (lookup_find_album_mem sources0 (key, ftc) (X, r) hfind)
      | error e =>
        rcases htc : try_conversions encOk key ft
            (create_source_album_lookup sources0) rest s2 with ⟨res3, ops3, s3⟩
        have hstep : try_conversions encOk key ft (create_source_album_lookup sources0)
            (ftc :: rest) srcs = ⟨res3, ops2 ++ ops3, s3⟩ := by
          rw [try_conversions]
          simp only [hfind, hcv, htc]
        rw [hstep]
        have h3 := ih s2
        rw [htc] at h3
        constructor
        · intro op hop
          rcases List.mem_append.mp hop with hop | hop
          · exact hops2 op hop
          · exact h3.1 op hop
        · exact h3.2

theorem get_ft_avoid (d destRoot : FsPath) (encOk : FsPath → Bool)
    (album : Album) (ft : FileType) (sources0 srcs : List (FsPath × List Album))
    (hconv : d ∉ conv_dir_candidates ft sources0)
    (hcopy : d ∉ copy_target_candidates destRoot ft sources0) :
    (∀ op ∈ (get_ft_src_album encOk album ft
        (create_source_album_lookup sources0) srcs).ops, opTouches d op = false) ∧
    (∀ c, (get_ft_src_album encOk album ft
        (create_source_album_lookup sources0) srcs).res = some c →
      copyTarget destRoot c ≠ d) := by
  cases hfind : lookupFind (create_source_album_lookup sources0)
      (album.key, ft) with
  | none =>
    have hstep : get_ft_src_album encOk album ft
        (create_source_album_lookup sources0) srcs
        = try_conversions encOk album.key ft
            (create_source_album_lookup sources0) src_ft_order srcs := by
      unfold get_ft_src_album
      simp only [hfind]
    rw [hstep]
    exact try_conversions_avoid d destRoot encOk album.key ft sources0
      hconv hcopy src_ft_order srcs
  | some v =>
    obtain ⟨X, r⟩ := v
    have hstep : get_ft_src_album encOk album ft
        (create_source_album_lookup sources0) srcs = ⟨some X, [], srcs⟩ := by
      unfold get_ft_src_album
      simp only [hfind]
    rw [hstep]
    constructor
    · intro op hop
      exact absurd hop (List.not_mem_nil op)
    · intro c hc
      have hc2 : X = c := by injection hc
      subst hc2
      intro hd
      apply hcopy
      unfold copy_target_candidates
      refine List.mem_append.mpr (Or.inl ?_)
      rw [← hd]
      exact List.mem_map_of_mem _
        (lookup_find_album_mem sources0 (album.key, ft) (X, r) hfind)

theorem avoid_append {d : FsPath} {l1 l2 : List SyncOp}
    (h1 : ∀ op ∈ l1, opTouches d op = false) (h2 : ∀ op ∈ l2, opTouches d op = false) :
    ∀ op ∈ l1 ++ l2, opTouches d op = false := by
  intro op hop
  rcases List.mem_append.mp hop with hop | hop
  · exact h1 op hop
  · exact h2 op hop

theorem mem_map_of_fix {α : Type} {f : α → α} {l : List α} {b : α}
    (hb : b ∈ l) (hf : f b = b) : b ∈ l.map f := by
  rw [← hf]
  exact List.mem_map_of_mem f hb

theorem loc_copy_full_ops (destRoot : FsPath) (sources : List (FsPath × List Album))
    (dest : List Album) (x : Album) :
    (loc_copy_full_album destRoot sources dest x).1
      = [SyncOp.copyFullAlbum x.dir_path (copyTarget destRoot x)] := rfl

theorem loc_copy_full_dest_mem (destRoot : FsPath) (sources : List (FsPath × List Album))
    (dest : List Album) (x b : Album) (hb : b ∈ dest) :
    b ∈ (loc_copy_full_album destRoot sources dest x).2 := by
  unfold loc_copy_full_album
  dsimp only
  split
  · exact hb
  · cases findRealAlbum sources x.dir_path
    · exact List.mem_append.mpr (Or.inl hb)
    · exact List.mem_append.mpr (Or.inl hb)

theorem loc_del_dest_mem (dest : List Album) (x b : Album) (hb : b ∈ dest)
    (hne : b.dir_path ≠ x.dir_path) : b ∈ (loc_del_album dest x).2 := by
  unfold loc_del_album
  dsimp only
  refine List.mem_filter.mpr ⟨hb, ?_⟩
  simp [hne]

theorem loc_copy_missing_avoid (d destRoot : FsPath)
    (sources : List (FsPath × List Album)) (dest : List Album)
    (src_album dst_album : Album) (hdst : dst_album.dir_path ≠ d)
    (htgt : copyTarget destRoot src_album ≠ d) :
    ∀ op ∈ (loc_copy_missing_files destRoot sources dest src_album dst_album).1,
      opTouches d op = false := by
  intro op hop
  unfold loc_copy_missing_files at hop
  split at hop
  · dsimp only at hop
    rcases List.mem_map.mp hop with ⟨t, _, ht⟩
    subst ht
    simp only [opTouches, List.dropLast_concat, decide_eq_false_iff_not]
    exact hdst
  · rw [loc_copy_full_ops, List.mem_singleton] at hop
    subst hop
    simp only [opTouches, decide_eq_false_iff_not]
    exact htgt

theorem loc_copy_missing_dest_mem (destRoot : FsPath)
    (sources : List (FsPath × List Album)) (dest : List Album)
    (src_album dst_album b : Album) (hb : b ∈ dest)
    (hbne : b.dir_path ≠ dst_album.dir_path) :
    b ∈ (loc_copy_missing_files destRoot sources dest src_album dst_album).2 := by
  unfold loc_copy_missing_files
  split
  · dsimp only
    exact mem_map_of_fix hb (by rw [if_neg hbne])
  · exact loc_copy_full_dest_mem destRoot sources dest src_album b hb

theorem ensure_preserves (encOk : FsPath → Bool) (destRoot : FsPath)
    (album : Album) (ft : FileType) (sources0 : List (FsPath × List Album))
    (a : Album)
    (hconv : a.dir_path ∉ conv_dir_candidates ft sources0)
    (hcopy : a.dir_path ∉ copy_target_candidates destRoot ft sources0)
    (srcs : List (FsPath × List Album)) (dest : List Album) (hmem : a ∈ dest) :
    (∀ op ∈ (ensure_album_is_in_location encOk destRoot album ft
        (create_source_album_lookup sources0) false srcs dest).ops,
      opTouches a.dir_path op = false) ∧
    a ∈ (ensure_album_is_in_location encOk destRoot album ft
        (create_source_album_lookup sources0) false srcs dest).dest := by
  have hga := get_ft_avoid a.dir_path destRoot encOk album ft sources0 srcs hconv hcopy
  rcases hg : get_ft_src_album encOk album ft
      (create_source_album_lookup sources0) srcs with ⟨res1, ops1, s1⟩
  rw [hg] at hga
  cases res1 with
  | some s =>
    rcases hcf : loc_copy_full_album destRoot s1 dest s with ⟨ops2, dest2⟩
    have hens : ensure_album_is_in_location encOk destRoot album ft
        (create_source_album_lookup sources0) false srcs dest
        = ⟨Except.ok ft, ops1 ++ ops2, s1, dest2⟩ := by
      unfold ensure_album_is_in_location
      simp only [hg, hcf]
    rw [hens]
    have hops2 : ops2 = [SyncOp.copyFullAlbum s.dir_path (copyTarget destRoot s)] := by
      rw [← loc_copy_full_ops destRoot s1 dest s, hcf]
    have htgt : copyTarget destRoot s ≠ a.dir_path := hga.2 s rfl
    constructor
    · refine avoid_append hga.1 ?_
      rw [hops2]
      intro op hop
      rw [List.mem_singleton] at hop
      subst hop
      simp only [opTouches, decide_eq_false_iff_not]
      exact fun hh => htgt hh
    · have hd := loc_copy_full_dest_mem destRoot s1 dest s a hmem
      rw [hcf] at hd
      exact hd
  | none =>
    cases hft : album.file_type with
    | none =>
      have hens : ensure_album_is_in_location encOk destRoot album ft
          (create_source_album_lookup sources0) false srcs dest
          = ⟨Except.error "Failed to find proper source", ops1, s1, dest⟩ := by
        unfold ensure_album_is_in_location
        simp only [hg, hft]
      rw [hens]
      exact ⟨hga.1, hmem⟩
    | some ft2 =>
      have hens : ensure_album_is_in_location encOk destRoot album ft
          (create_source_album_lookup sources0) false srcs dest
          = ⟨Except.error "Failed to find proper source", ops1, s1, dest⟩ := by
        unfold ensure_album_is_in_location
        simp only [hg, hft]
      rw [hens]
      exact ⟨hga.1, hmem⟩

/-- The per-run invariant for claim C3: the album `a` is present (unchanged)
at the destination, and no performed operation touches its directory. -/
def AccOK (a : Album) (acc : SyncAcc) : Prop :=
  a ∈ acc.dest ∧ ∀ op ∈ acc.ops, opTouches a.dir_path op = false

theorem closure_preserves (encOk : FsPath → Bool) (destRoot : FsPath)
    (album : Album) (ft : FileType) (sources0 : List (FsPath × List Album))
    (a : Album)
    (hconv : a.dir_path ∉ conv_dir_candidates ft sources0)
    (hcopy : a.dir_path ∉ copy_target_candidates destRoot ft sources0)
    (acc : SyncAcc) (h : AccOK a acc) :
    AccOK a (copy_full_album_closure encOk destRoot ft
      (create_source_album_lookup sources0) false album acc) := by
  have he := ensure_preserves encOk destRoot album ft sources0 a hconv hcopy
    acc.sources acc.dest h.1
  rcases hec : ensure_album_is_in_location encOk destRoot album ft
      (create_source_album_lookup sources0) false acc.sources acc.dest
    with ⟨res, ops, s2, d2⟩
  rw [hec] at he
  cases res with
  | ok ft2 =>
    have hcl : copy_full_album_closure encOk destRoot ft
        (create_source_album_lookup sources0) false album acc
        = ⟨s2, d2, acc.ail ++ [(album.key, ft2)], acc.ops ++ ops, acc.logs⟩ := by
      unfold copy_full_album_closure
      simp only [hec]
    rw [hcl]
    exact ⟨he.2, avoid_append h.2 he.1⟩
  | error e =>
    have hcl : copy_full_album_closure encOk destRoot ft
        (create_source_album_lookup sources0) false album acc
        = ⟨s2, d2, acc.ail, acc.ops ++ ops,
            acc.logs ++ [SyncLog.ensureFailed album]⟩ := by
      unfold copy_full_album_closure
      simp only [hec]
    rw [hcl]
    exact ⟨he.2, avoid_append h.2 he.1⟩

theorem closure_logs_mono (encOk : FsPath → Bool) (destRoot : FsPath)
    (album : Album) (ft : FileType) (lookup : SourceLookup) (allow_any : Bool)
    (acc : SyncAcc) (x : SyncLog) (hx : x ∈ acc.logs) :
    x ∈ (copy_full_album_closure encOk destRoot ft lookup allow_any album acc).logs := by
  rcases hec : ensure_album_is_in_location encOk destRoot album ft lookup allow_any
      acc.sources acc.dest with ⟨res, ops, s2, d2⟩
  cases res with
  | ok ft2 =>
    have hcl : copy_full_album_closure encOk destRoot ft lookup allow_any album acc
        = ⟨s2, d2, acc.ail ++ [(album.key, ft2)], acc.ops ++ ops, acc.logs⟩ := by
      unfold copy_full_album_closure
      simp only [hec]
    rw [hcl]
    exact hx
  | error e =>
    have hcl : copy_full_album_closure encOk destRoot ft lookup allow_any album acc
        = ⟨s2, d2, acc.ail, acc.ops ++ ops,
            acc.logs ++ [SyncLog.ensureFailed album]⟩ := by
      unfold copy_full_album_closure
      simp only [hec]
    rw [hcl]
    exact List.mem_append.mpr (Or.inl hx)

theorem loc_del_ops (dest : List Album) (x : Album) :
    (loc_del_album dest x).1 = [SyncOp.delAlbum x.dir_path] := rfl

theorem phase1_step_no_source (encOk : FsPath → Bool) (destRoot : FsPath)
    (sources0 : List (FsPath × List Album)) (scan : List Album) (a : Album)
    (acc : SyncAcc)
    (haft : a.file_type = some FileType.MP3)
    (hnoflac : lookupFind (create_source_album_lookup sources0)
      (a.key, FileType.Flac) = none)
    (hnowav : lookupFind (create_source_album_lookup sources0)
      (a.key, FileType.Wav) = none) :
    phase1_step encOk destRoot FileType.Flac false
        (create_source_album_lookup sources0) scan a acc
      = ⟨acc.sources, acc.dest, acc.ail ++ [(a.key, FileType.MP3)], acc.ops,
          acc.logs ++ [SyncLog.noSrcAlbum a]⟩ := by
  unfold phase1_step
  simp only [haft, get_ft_none_flac encOk a sources0 acc.sources hnoflac hnowav,
    List.append_nil]

theorem phase1_step_preserves (encOk : FsPath → Bool) (destRoot : FsPath)
    (ft : FileType) (sources0 : List (FsPath × List Album)) (scan : List Album)
    (a x : Album) (hx : x.dir_path ≠ a.dir_path)
    (hconv : a.dir_path ∉ conv_dir_candidates ft sources0)
    (hcopy : a.dir_path ∉ copy_target_candidates destRoot ft sources0)
    (acc : SyncAcc) (h : AccOK a acc) :
    AccOK a (phase1_step encOk destRoot ft false
        (create_source_album_lookup sources0) scan x acc) ∧
    (∀ lg ∈ acc.logs, lg ∈ (phase1_step encOk destRoot ft false
        (create_source_album_lookup sources0) scan x acc).logs) := by
  have hadir : a.dir_path ≠ x.dir_path := fun hh => hx hh.symm
  cases hft : x.file_type with
  | none =>
    have hstep : phase1_step encOk destRoot ft false
        (create_source_album_lookup sources0) scan x acc
        = ⟨acc.sources, acc.dest, acc.ail, acc.ops,
            acc.logs ++ [SyncLog.noFileType x]⟩ := by
      unfold phase1_step
      simp only [hft]
    rw [hstep]
    exact ⟨⟨h.1, h.2⟩, fun lg hlg => List.mem_append.mpr (Or.inl hlg)⟩
  | some aft =>
    have hga := get_ft_avoid a.dir_path destRoot encOk x ft sources0
      acc.sources hconv hcopy
    rcases hg : get_ft_src_album encOk x ft
        (create_source_album_lookup sources0) acc.sources with ⟨res1, ops1, s1⟩
    rw [hg] at hga
    cases res1 with
    | none =>
      have hstep : phase1_step encOk destRoot ft false
          (create_source_album_lookup sources0) scan x acc
          = ⟨s1, acc.dest, acc.ail ++ [(x.key, aft)], acc.ops ++ ops1,
              acc.logs ++ [SyncLog.noSrcAlbum x]⟩ := by
        unfold phase1_step
        simp only [hft, hg]
      rw [hstep]
      exact ⟨⟨h.1, avoid_append h.2 hga.1⟩,
        fun lg hlg => List.mem_append.mpr (Or.inl hlg)⟩
    | some src_album =>
      by_cases haftft : aft = ft
      · subst haftft
        rcases hcm : loc_copy_missing_files destRoot s1 acc.dest src_album x
          with ⟨ops2, dest2⟩
        have hstep : phase1_step encOk destRoot aft false
            (create_source_album_lookup sources0) scan x acc
            = ⟨s1, dest2, acc.ail ++ [(x.key, aft)], acc.ops ++ ops1 ++ ops2,
                acc.logs⟩ := by
          unfold phase1_step
          simp only [hft, hg, hcm]
          rw [if_neg (fun hh => hh rfl)]
        rw [hstep]
        have hops2 : ∀ op ∈ ops2, opTouches a.dir_path op = false := by
          have h4 := loc_copy_missing_avoid a.dir_path destRoot s1 acc.dest
            src_album x hx (hga.2 src_album rfl)
          rw [hcm] at h4
          exact h4
        have hd2 : a ∈ dest2 := by
          have h5 := loc_copy_missing_dest_mem destRoot s1 acc.dest src_album x a
            h.1 hadir
          rw [hcm] at h5
          exact h5
        exact ⟨⟨hd2, avoid_append (avoid_append h.2 hga.1) hops2⟩,
          fun lg hlg => hlg⟩
      · by_cases hscan : (scan.any (fun a2 =>
            decide (a2.key = x.key) && decide (a2.file_type = some ft))) = true
        · have hstep : phase1_step encOk destRoot ft false
              (create_source_album_lookup sources0) scan x acc
              = ⟨s1, acc.dest, acc.ail, acc.ops ++ ops1, acc.logs⟩ := by
            unfold phase1_step
            simp only [hft, hg, hscan, if_pos haftft]
            rfl
          rw [hstep]
          exact ⟨⟨h.1, avoid_append h.2 hga.1⟩, fun lg hlg => hlg⟩
        · rcases hdel : loc_del_album acc.dest x with ⟨opsD, destD⟩
          have hstep : phase1_step encOk destRoot ft false
              (create_source_album_lookup sources0) scan x acc
              = copy_full_album_closure encOk destRoot ft
                  (create_source_album_lookup sources0) false src_album
                  ⟨s1, destD, acc.ail, acc.ops ++ ops1 ++ opsD, acc.logs⟩ := by
            unfold phase1_step
            simp only [hft, hg, hscan, if_pos haftft, hdel]
            rfl
          rw [hstep]
          have hopsD : ∀ op ∈ opsD, opTouches a.dir_path op = false := by
            have h6 : opsD = [SyncOp.delAlbum x.dir_path] := by
              rw [← loc_del_ops acc.dest x, hdel]
            rw [h6]
            intro op hop
            rw [List.mem_singleton] at hop
            subst hop
            simp only [opTouches, decide_eq_false_iff_not]
            exact hx
          have hdD : a ∈ destD := by
            have h7 := loc_del_dest_mem acc.dest x a h.1 hadir
            rw [hdel] at h7
            exact h7
          have hacc2 : AccOK a ⟨s1, destD, acc.ail, acc.ops ++ ops1 ++ opsD, acc.logs⟩ :=
            ⟨hdD, avoid_append (avoid_append h.2 hga.1) hopsD⟩
          exact ⟨closure_preserves encOk destRoot src_album ft sources0 a hconv hcopy
              _ hacc2,
            fun lg hlg => closure_logs_mono encOk destRoot src_album ft
              (create_source_album_lookup sources0) false _ lg hlg⟩

theorem phase1_append (encOk : FsPath → Bool) (destRoot : FsPath)
    (ft : FileType) (allow_any : Bool) (lookup : SourceLookup)
    (scan : List Album) :
    ∀ (l1 l2 : List Album) (acc : SyncAcc),
      phase1 encOk destRoot ft allow_any lookup scan (l1 ++ l2) acc
        = phase1 encOk destRoot ft allow_any lookup scan l2
            (phase1 encOk destRoot ft allow_any lookup scan l1 acc) := by
  intro l1
  induction l1 with
  | nil => intro l2 acc; rfl
  | cons x rest ih =>
    intro l2 acc
    exact ih l2 (phase1_step encOk destRoot ft allow_any lookup scan x acc)

theorem phase1_preserves (encOk : FsPath → Bool) (destRoot : FsPath)
    (ft : FileType) (sources0 : List (FsPath × List Album)) (scan : List Album)
    (a : Album)
    (hconv : a.dir_path ∉ conv_dir_candidates ft sources0)
    (hcopy : a.dir_path ∉ copy_target_candidates destRoot ft sources0) :
    ∀ (l : List Album) (acc : SyncAcc),
      (∀ x ∈ l, x.dir_path ≠ a.dir_path) → AccOK a acc →
      AccOK a (phase1 encOk destRoot ft false
          (create_source_album_lookup sources0) scan l acc) ∧
      (∀ lg ∈ acc.logs, lg ∈ (phase1 encOk destRoot ft false
          (create_source_album_lookup sources0) scan l acc).logs) := by
  intro l
  induction l with
  | nil => intro acc _ h; exact ⟨h, fun lg hlg => hlg⟩
  | cons x rest ih =>
    intro acc hl h
    have hx : x.dir_path ≠ a.dir_path := hl x (List.mem_cons_self x rest)
    have hstep := phase1_step_preserves encOk destRoot ft sources0 scan a x hx
      hconv hcopy acc h
    have hrest := ih
      (phase1_step encOk destRoot ft false (create_source_album_lookup sources0)
        scan x acc)
      (fun y hy => hl y (List.mem_cons_of_mem x hy)) hstep.1
    exact ⟨hrest.1, fun lg hlg => hrest.2 lg (hstep.2 lg hlg)⟩

theorem phase2_preserves (encOk : FsPath → Bool) (destRoot : FsPath)
    (ft : FileType) (sources0 : List (FsPath × List Album)) (a : Album)
    (hconv : a.dir_path ∉ conv_dir_candidates ft sources0)
    (hcopy : a.dir_path ∉ copy_target_candidates destRoot ft sources0) :
    ∀ (entries : List ((String × FileType) × (Album × FsPath))) (acc : SyncAcc),
      AccOK a acc →
      AccOK a (phase2 encOk destRoot ft (create_source_album_lookup sources0)
          false entries acc) ∧
      (∀ lg ∈ acc.logs, lg ∈ (phase2 encOk destRoot ft
          (create_source_album_lookup sources0) false entries acc).logs) := by
  intro entries
  induction entries with
  | nil => intro acc h; exact ⟨h, fun lg hlg => hlg⟩
  | cons e rest ih =>
    intro acc h
    simp only [phase2]
    by_cases hany : (acc.ail.any (fun p => decide (p.1 = e.2.1.key))) = true
    · rw [if_pos hany]
      exact ih acc h
    · rw [if_neg hany]
      have hcl := closure_preserves encOk destRoot e.2.1 ft sources0 a hconv
        hcopy acc h
      have hrest := ih
        (copy_full_album_closure encOk destRoot ft
          (create_source_album_lookup sources0) false e.2.1 acc) hcl
      exact ⟨hrest.1, fun lg hlg => hrest.2 lg
        (closure_logs_mono encOk destRoot e.2.1 ft
          (create_source_album_lookup sources0) false acc lg hlg)⟩

theorem sync_frame_split (encOk : FsPath → Bool) (destRoot : FsPath)
    (sources : List (FsPath × List Album)) (L1 L2 : List Album) (a : Album)
    (haft : a.file_type = some FileType.MP3)
    (hnoflac : lookupFind (create_source_album_lookup sources)
      (a.key, FileType.Flac) = none)
    (hnowav : lookupFind (create_source_album_lookup sources)
      (a.key, FileType.Wav) = none)
    (hL1 : ∀ x ∈ L1, x.dir_path ≠ a.dir_path)
    (hL2 : ∀ x ∈ L2, x.dir_path ≠ a.dir_path)
    (hconv : a.dir_path ∉ conv_dir_candidates FileType.Flac sources)
    (hcopy : a.dir_path ∉ copy_target_candidates destRoot FileType.Flac sources) :
    SyncLog.noSrcAlbum a ∈ (sync_to_loc encOk destRoot FileType.Flac false sources
        (L1 ++ a :: L2)).logs ∧
    a ∈ (sync_to_loc encOk destRoot FileType.Flac false sources (L1 ++ a :: L2)).dest ∧
    ∀ op ∈ (sync_to_loc encOk destRoot FileType.Flac false sources
        (L1 ++ a :: L2)).ops, opTouches a.dir_path op = false := by
  have hacc0 : AccOK a (⟨sources, L1 ++ a :: L2, [], [], []⟩ : SyncAcc) :=
    ⟨List.mem_append.mpr (Or.inr (List.mem_cons_self a L2)),
      fun op hop => absurd hop (List.not_mem_nil op)⟩
  have hB := phase1_preserves encOk destRoot FileType.Flac sources (L1 ++ a :: L2)
    a hconv hcopy L1 ⟨sources, L1 ++ a :: L2, [], [], []⟩ hL1 hacc0
  have hSeq := phase1_step_no_source encOk destRoot sources (L1 ++ a :: L2) a
    (phase1 encOk destRoot FileType.Flac false (create_source_album_lookup sources)
      (L1 ++ a :: L2) L1 ⟨sources, L1 ++ a :: L2, [], [], []⟩)
    haft hnoflac hnowav
  have hSacc : AccOK a (phase1_step encOk destRoot FileType.Flac false
      (create_source_album_lookup sources) (L1 ++ a :: L2) a
      (phase1 encOk destRoot FileType.Flac false (create_source_album_lookup sources)
        (L1 ++ a :: L2) L1 ⟨sources, L1 ++ a :: L2, [], [], []⟩)) := by
    rw [hSeq]
    exact ⟨hB.1.1, hB.1.2⟩
  have hSlog : SyncLog.noSrcAlbum a ∈ (phase1_step encOk destRoot FileType.Flac false
      (create_source_album_lookup sources) (L1 ++ a :: L2) a
      (phase1 encOk destRoot FileType.Flac false (create_source_album_lookup sources)
        (L1 ++ a :: L2) L1 ⟨sources, L1 ++ a :: L2, [], [], []⟩)).logs := by
    rw [hSeq]
    exact List.mem_append.mpr (Or.inr (List.mem_singleton.mpr rfl))
  have hA1 := phase1_preserves encOk destRoot FileType.Flac sources (L1 ++ a :: L2)
    a hconv hcopy L2
    (phase1_step encOk destRoot FileType.Flac false
      (create_source_album_lookup sources) (L1 ++ a :: L2) a
      (phase1 encOk destRoot FileType.Flac false (create_source_album_lookup sources)
        (L1 ++ a :: L2) L1 ⟨sources, L1 ++ a :: L2, [], [], []⟩))
    hL2 hSacc
  have hA1log := hA1.2 (SyncLog.noSrcAlbum a) hSlog
  have hphiter : phase1 encOk destRoot FileType.Flac false
      (create_source_album_lookup sources) (L1 ++ a :: L2) (L1 ++ a :: L2)
      ⟨sources, L1 ++ a :: L2, [], [], []⟩
      = phase1 encOk destRoot FileType.Flac false
          (create_source_album_lookup sources) (L1 ++ a :: L2) L2
          (phase1_step encOk destRoot FileType.Flac false
            (create_source_album_lookup sources) (L1 ++ a :: L2) a
            (phase1 encOk destRoot FileType.Flac false
              (create_source_album_lookup sources) (L1 ++ a :: L2) L1
              ⟨sources, L1 ++ a :: L2, [], [], []⟩)) := by
    rw [phase1_append]
    rfl
  have hfullacc : AccOK a (phase1 encOk destRoot FileType.Flac false
      (create_source_album_lookup sources) (L1 ++ a :: L2) (L1 ++ a :: L2)
      ⟨sources, L1 ++ a :: L2, [], [], []⟩) := by
    rw [hphiter]
    exact hA1.1
  have hfulllog : SyncLog.noSrcAlbum a ∈ (phase1 encOk destRoot FileType.Flac false
      (create_source_album_lookup sources) (L1 ++ a :: L2) (L1 ++ a :: L2)
      ⟨sources, L1 ++ a :: L2, [], [], []⟩).logs := by
    rw [hphiter]
    exact hA1log
  have hP2 := phase2_preserves encOk destRoot FileType.Flac sources a hconv hcopy
    (create_source_album_lookup
      (phase1 encOk destRoot FileType.Flac false (create_source_album_lookup sources)
        (L1 ++ a :: L2) (L1 ++ a :: L2) ⟨sources, L1 ++ a :: L2, [], [], []⟩).sources)
    (phase1 encOk destRoot FileType.Flac false (create_source_album_lookup sources)
      (L1 ++ a :: L2) (L1 ++ a :: L2) ⟨sources, L1 ++ a :: L2, [], [], []⟩)
    hfullacc
  have hP2log := hP2.2 (SyncLog.noSrcAlbum a) hfulllog
  rcases h2 : phase2 encOk destRoot FileType.Flac (create_source_album_lookup sources)
      false
      (create_source_album_lookup
        (phase1 encOk destRoot FileType.Flac false (create_source_album_lookup sources)
          (L1 ++ a :: L2) (L1 ++ a :: L2) ⟨sources, L1 ++ a :: L2, [], [], []⟩).sources)
      (phase1 encOk destRoot FileType.Flac false (create_source_album_lookup sources)
        (L1 ++ a :: L2) (L1 ++ a :: L2) ⟨sources, L1 ++ a :: L2, [], [], []⟩)
    with ⟨s2, d2, ail2, ops2, logs2⟩
  rw [h2] at hP2 hP2log
  have hsync : sync_to_loc encOk destRoot FileType.Flac false sources (L1 ++ a :: L2)
      = ⟨ops2, logs2, s2, d2⟩ := by
    unfold sync_to_loc
    rw [h2]
  rw [hsync]
  exact ⟨hP2log, hP2.1.1, hP2.1.2⟩

/-- Destination album of the concrete C3 scenario: an MP3 album at
`D/A/T` with key `A###T`. -/
def c3DestAlbum : Album :=
  ⟨"T", "A", ["01 - s.mp3"], ["D", "A", "T"], [], "T", "A"⟩

/-- Source state of the concrete C3 scenario: one root `R` holding an
unrelated MP3 album with key `B###T2`, so the lookup has no FLAC and no WAV
binding for `A###T`. -/
def c3Sources : List (FsPath × List Album) :=
  [(["R"], [⟨"T2", "B", ["01 - s.mp3"], ["R", "B", "T2 [mp3]"], [], "T2", "B"⟩])]

/-- C3.  With desired type FLAC and `allow_any = false`, a scanned destination
album whose file type is MP3 and whose key has neither a FLAC nor a WAV
binding in the source lookup is reported as having no source album, remains in
the destination state, and no operation emitted by the whole `sync_to_loc`
pass (delete, full copy, per-file copy, or conversion output) touches its
directory — given that destination directories are pairwise distinct and the
album's directory is not a conversion output directory or copy target of any
source album. -/
theorem sync_leaves_unmatched_album_untouched (encOk : FsPath → Bool)
    (destRoot : FsPath) (sources : List (FsPath × List Album))
    (destAlbums : List Album) (a : Album) (ha : a ∈ destAlbums)
    (haft : a.file_type = some FileType.MP3)
    (hnoflac : lookupFind (create_source_album_lookup sources)
      (a.key, FileType.Flac) = none)
    (hnowav : lookupFind (create_source_album_lookup sources)
      (a.key, FileType.Wav) = none)
    (hnodup : (destAlbums.map Album.dir_path).Nodup)
    (hconv : a.dir_path ∉ conv_dir_candidates FileType.Flac sources)
    (hcopy : a.dir_path ∉ copy_target_candidates destRoot FileType.Flac sources) :
    SyncLog.noSrcAlbum a ∈ (sync_to_loc encOk destRoot FileType.Flac false
        sources destAlbums).logs ∧
    a ∈ (sync_to_loc encOk destRoot FileType.Flac false sources destAlbums).dest ∧
    ∀ op ∈ (sync_to_loc encOk destRoot FileType.Flac false sources
        destAlbums).ops, opTouches a.dir_path op = false := by
  rcases List.append_of_mem ha with ⟨L1, L2, hsplit⟩
  subst hsplit
  rw [List.map_append, List.map_cons, List.nodup_append] at hnodup
  have hnotinL1 : a.dir_path ∉ L1.map Album.dir_path := fun hmem =>
    hnodup.2.2 hmem (List.mem_cons_self a.dir_path (L2.map Album.dir_path))
  have hnotinL2 : a.dir_path ∉ L2.map Album.dir_path :=
    (List.nodup_cons.mp hnodup.2.1).1
  have hL1 : ∀ x ∈ L1, x.dir_path ≠ a.dir_path := by
    intro x hx heq
    apply hnotinL1
    rw [← heq]
    exact List.mem_map_of_mem Album.dir_path hx
  have hL2 : ∀ x ∈ L2, x.dir_path ≠ a.dir_path := by
    intro x hx heq
    apply hnotinL2
    rw [← heq]
    exact List.mem_map_of_mem Album.dir_path hx
  exact sync_frame_split encOk destRoot sources L1 L2 a haft hnoflac hnowav
    hL1 hL2 hconv hcopy

theorem sync_leaves_unmatched_album_untouched_witness :
    SyncLog.noSrcAlbum c3DestAlbum ∈ (sync_to_loc (fun _ => true) ["D"]
        FileType.Flac false c3Sources [c3DestAlbum]).logs ∧
    c3DestAlbum ∈ (sync_to_loc (fun _ => true) ["D"] FileType.Flac false
        c3Sources [c3DestAlbum]).dest ∧
    ∀ op ∈ (sync_to_loc (fun _ => true) ["D"] FileType.Flac false c3Sources
        [c3DestAlbum]).ops, opTouches c3DestAlbum.dir_path op = false :=
  sync_leaves_unmatched_album_untouched (fun _ => true) ["D"] c3Sources
    [c3DestAlbum] c3DestAlbum (by decide) (by decide) (by decide) (by decide)
    (by decide) (by decide) (by decide)

end Morg
